import Mathlib

/-!
# Verification of the flowtools data-map core (`flowtools/datamaps.py`)

This file gives a shallow embedding of the grid-cell classification and
geometric-feature extraction engine of the flowtools repository
(`src/flowtools/datamaps.py`, class `DataMap`) and proves or refutes the
frozen specification claims about it.

Modelling conventions:
* Python floats are modelled as rationals (`ℚ`); exact arithmetic claims are
  settled in this exact model.
* A cell dictionary becomes the record `Cell`; the rectangular numpy array
  `DataMap.cells` of shape (rows, cols) becomes a `Grid`: the dimensions plus
  a total cell-valued function (only in-bounds indices are ever read by the
  embedded operations, mirroring the bounds filters of the Python code).
* Python exceptions that escape a function are modelled by `Option`/`none`
  results (`IndexError` in `DataMap.info` on an empty cell array,
  `ZeroDivisionError` in `DataMap.com`, ...).
* The in-place, cell-by-cell flag mutation of the `__cells_droplet`
  decorator is modelled operationally: a fold over the row-major list of
  positions, each step overwriting one flag, exactly as the Python wrapper
  `for i, row in enumerate(self.cells): for j, cell in enumerate(row):
  cell['droplet'] = func(...)` does on the live array.
-/

namespace Flowtools

/-- One cell of a data map: the per-cell sample fields read from a file
(`X`, `Y`, atom count `N`, temperature `T`, mass `M`, flow `U`, `V`) plus the
`droplet` classification flag that the classifier passes overwrite. -/
structure Cell where
  X : ℚ
  Y : ℚ
  N : ℚ
  T : ℚ
  M : ℚ
  U : ℚ
  V : ℚ
  droplet : Bool
deriving Repr, DecidableEq, Inhabited

/-- The rectangular cell array `DataMap.cells`: `rows × cols` cells, first
index a row (constant `Y`), second a column (constant `X`), as produced by
`DataMap._grid`. The function is total; the embedded operations only read
in-bounds indices, as numpy indexing in the source only touches valid ones. -/
structure Grid where
  rows : ℕ
  cols : ℕ
  cell : ℕ → ℕ → Cell

/-- A droplet-flag assignment: what `cells[i][j]['droplet']` holds. -/
abbrev Flags := ℕ → ℕ → Bool

/-- The flags of a grid. -/
def Grid.flags (g : Grid) : Flags := fun i j => (g.cell i j).droplet

/-- Replace the droplet flags of a grid (used to model a classifier pass
writing only the `droplet` key of each cell dictionary). -/
def gridWithFlags (g : Grid) (f : Flags) : Grid :=
  ⟨g.rows, g.cols, fun i j => { g.cell i j with droplet := f i j }⟩

/-! ## Classifier pass 2: the mass filter `DataMap._cells_min_mass`

`if cell['M'] == 0.: return False; else: return cell['M'] >= min_mass` -/

/-- Per-cell mass test of `_cells_min_mass`: a cell with zero mass always
fails; otherwise the mass must reach `min_mass`. -/
def massCheck (minMass : ℚ) (c : Cell) : Bool :=
  if c.M = 0 then false else decide (minMass ≤ c.M)

/-- The whole mass pass: the `__cells_droplet` wrapper writes
`massCheck` into every (in-bounds) cell; the result for one cell does not
depend on any other cell, so the in-place loop is a pointwise map. -/
def gridMass (minMass : ℚ) (g : Grid) : Grid :=
  ⟨g.rows, g.cols, fun i j =>
    if i < g.rows ∧ j < g.cols then
      { g.cell i j with droplet := massCheck minMass (g.cell i j) }
    else g.cell i j⟩

/-- The flags left by the mass pass. -/
def massFlags (minMass : ℚ) (g : Grid) : Flags :=
  (gridMass minMass g).flags

/-! ## Classifier pass 3: the connectivity filter `DataMap._cells_inside`

The Python code, for the cell at `(row, column)`:
```
check_rows = list(filter(lambda x: x >= 0 and x < cells.shape[0],
        [row + 1, row - 1]))
check_columns = [
        list(filter(lambda x: x >= 0 and x < cells.shape[1], column))
        for column in [
            range(column, column + num_columns + 1, 1),
            range(column, column - num_columns - 1, -1)]]
for other_row in check_rows:
    for dir_columns in check_columns:
        for other_column in dir_columns:
            if not cells[row][other_column]['droplet']:
                break
            elif cells[other_row][other_column]['droplet']:
                return True
return False
```
-/

/-- The adjacent rows examined for the cell in row `i` of a grid with
`nrows` rows: `row + 1` first, then `row - 1`, each kept only when it is a
valid row index (in Python, `-1` is filtered out by `x >= 0`). -/
def checkRows (nrows i : ℕ) : List ℕ :=
  (if i + 1 < nrows then [i + 1] else []) ++ (if 1 ≤ i then [i - 1] else [])

/-- The rightward walk columns for a cell in column `j` with window `w`:
`range(column, column + w + 1)` filtered to valid columns, i.e.
`[j, j+1, ..., min (j+w) (ncols-1)]`. -/
def colsRight (ncols w j : ℕ) : List ℕ :=
  List.range' j (min (w + 1) (ncols - j))

/-- The leftward walk columns: `range(column, column - w - 1, -1)` filtered
to non-negative columns, i.e. `[j, j-1, ..., j - min w j]`. -/
def colsLeft (w j : ℕ) : List ℕ :=
  (List.range' 0 (min (w + 1) (j + 1))).map (fun k => j - k)

/-- The innermost loop of `_cells_inside`: walk along the listed columns of
the cell's own row `i`; break (return `false`) at the first column whose
own-row cell is not a droplet; return `true` at the first column whose
cell in the other row `orow` is a droplet. -/
def walkDir (f : Flags) (i orow : ℕ) : List ℕ → Bool
  | [] => false
  | c :: rest =>
    if f i c then (if f orow c then true else walkDir f i orow rest)
    else false

/-- The per-cell connectivity test of `_cells_inside`, reading the flag
assignment `f`: some adjacent row and some walk direction succeed. -/
def insideCheck (nrows ncols w : ℕ) (f : Flags) (i j : ℕ) : Bool :=
  (checkRows nrows i).any fun orow =>
    [colsRight ncols w j, colsLeft w j].any fun dir => walkDir f i orow dir

/-- Overwrite one flag. -/
def setF (f : Flags) (i j : ℕ) (b : Bool) : Flags :=
  fun i' j' => if i' = i ∧ j' = j then b else f i' j'

/-- One step of the in-place pass: evaluate the connectivity test on the
current (live) flags and overwrite that cell's flag with the result. -/
def insideStep (nrows ncols w : ℕ) (f : Flags) (p : ℕ × ℕ) : Flags :=
  setF f p.1 p.2 (insideCheck nrows ncols w f p.1 p.2)

/-- Run the in-place pass over a given list of cell positions. -/
def insideRun (nrows ncols w : ℕ) (order : List (ℕ × ℕ)) (f : Flags) : Flags :=
  order.foldl (insideStep nrows ncols w) f

/-- The row-major position order of the `__cells_droplet` wrapper:
row 0 first, and within a row column 0 first. -/
def rowMajor (nrows ncols : ℕ) : List (ℕ × ℕ) :=
  (List.range nrows).flatMap fun i => (List.range ncols).map fun j => (i, j)

/-- Pass 3 exactly as the source runs it: the in-place fold in row-major
order over the live flag array. -/
def insidePass (nrows ncols w : ℕ) (f : Flags) : Flags :=
  insideRun nrows ncols w (rowMajor nrows ncols) f

/-- The two-phase reference pass: every in-bounds cell's new flag is the
connectivity test evaluated on the pre-pass flags (read phase first, then
write phase). -/
def snapPass (nrows ncols w : ℕ) (f : Flags) : Flags :=
  fun i j => if i < nrows ∧ j < ncols then insideCheck nrows ncols w f i j else f i j

/-- `DataMap.droplet(min_mass, columns)` as the source executes it: the flow
pass is commented out there, so it is the mass pass followed by the in-place
connectivity pass. -/
def gridDroplet (minMass : ℚ) (w : ℕ) (g : Grid) : Grid :=
  gridWithFlags g (insidePass g.rows g.cols w (massFlags minMass g))

/-! ## The spec's two-row lookahead condition (modelled from the spec)

The spec describes Pass 3 as: "the adjacent row must have a `droplet` cell
within the window, AND that candidate's own adjacent-adjacent row (two rows
further) must also have a `droplet` cell within a recentered window."  This
condition appears nowhere in the source; it is written here, from the
spec's words, only to compare it with the code's actual check. -/

/-- `|c - j| ≤ w` over naturals: column `c` lies within the window of
half-width `w` centred at column `j`. -/
def withinWindow (w j c : ℕ) : Bool :=
  decide (c ≤ j + w ∧ j ≤ c + w)

/-- The spec's two-row lookahead, one direction (`up = true` means the
adjacent row is `i + 1` and the lookahead row `i + 2`; `up = false` means
`i - 1` and `i - 2`, both required to exist). -/
def twoHopDir (nrows ncols w : ℕ) (f : Flags) (i j : ℕ) (up : Bool) : Bool :=
  let adj : ℕ := if up then i + 1 else i - 1
  let far : ℕ := if up then i + 2 else i - 2
  let adjOk : Bool := if up then decide (i + 1 < nrows) else decide (1 ≤ i)
  let farOk : Bool := if up then decide (i + 2 < nrows) else decide (2 ≤ i)
  adjOk && farOk &&
    (List.range ncols).any fun c =>
      withinWindow w j c && f adj c &&
        (List.range ncols).any fun c2 => withinWindow w c c2 && f far c2

/-- The spec's two-row lookahead condition at a cell: some direction (up or
down) has a droplet cell in the adjacent row within the window whose own
next row (two rows from the original cell) again has a droplet cell within
the window recentered on the candidate. -/
def twoHopCond (nrows ncols w : ℕ) (f : Flags) (i j : ℕ) : Bool :=
  twoHopDir nrows ncols w f i j true || twoHopDir nrows ncols w f i j false

/-! ## InterfaceExtractor: `DataMap.interface(get_cell_numbers=True)`

For each row, append the first droplet cell's `[column, row]` to the left
list and the last droplet cell's to the right list; the result is the left
list followed by the reversed right list. -/

/-- Index of the first droplet cell of row `i` (`for j, cell in
enumerate(row): if cell['droplet']: ...; break`). -/
def rowLeft (g : Grid) (i : ℕ) : Option ℕ :=
  (List.range g.cols).find? fun j => (g.cell i j).droplet

/-- Index of the last droplet cell of row `i` (`for j, cell in
enumerate(reversed(row)): ... len(row)-j-1 ...; break`). -/
def rowRight (g : Grid) (i : ℕ) : Option ℕ :=
  (List.range g.cols).reverse.find? fun j => (g.cell i j).droplet

/-- The left boundary list (`cells['left']`), bottom row first. -/
def interfaceLeft (g : Grid) : List (ℕ × ℕ) :=
  (List.range g.rows).filterMap fun i => (rowLeft g i).map fun j => (j, i)

/-- The right boundary list (`cells['right']`), bottom row first. -/
def interfaceRight (g : Grid) : List (ℕ × ℕ) :=
  (List.range g.rows).filterMap fun i => (rowRight g i).map fun j => (j, i)

/-- `DataMap.interface(get_cell_numbers=True)`: left boundary bottom-to-top,
then right boundary top-to-bottom, as `(column, row)` index pairs. -/
def interfaceIdx (g : Grid) : List (ℕ × ℕ) :=
  interfaceLeft g ++ (interfaceRight g).reverse

/-- Whether row `i` contains any droplet cell. -/
def rowHasDrop (g : Grid) (i : ℕ) : Bool :=
  (List.range g.cols).any fun j => (g.cell i j).droplet

/-- The rows containing droplet cells, in increasing order. -/
def dropRows (g : Grid) : List ℕ :=
  (List.range g.rows).filter (rowHasDrop g)

/-! ## `DataMap.info` and the flattened cell order

`info` works on `FlatArray(self.cells)`, i.e. the transposed array
ravelled: columns outer, rows inner (this is the file order: `Y` varies
fastest).  On an empty cell array, `cells[0]` raises `IndexError`; if every
cell has the same `X`, the run-length loop `while x ==
cells[numcells['Y']]['X']` runs past the end and raises `IndexError`.
Both are modelled by `none`. -/

/-- The information record of `DataMap.info`. -/
structure MapInfo where
  x0 : ℚ
  x1 : ℚ
  y0 : ℚ
  y1 : ℚ
  total : ℕ
  nx : ℕ
  ny : ℕ
  dx : ℚ
  dy : ℚ
deriving Repr, DecidableEq

/-- The cells of a grid in `FlatArray` order (transpose then ravel):
column-major, i.e. `X` outer, `Y` inner. -/
def flattenT (g : Grid) : List Cell :=
  (List.range g.cols).flatMap fun j => (List.range g.rows).map fun i => g.cell i j

/-- `DataMap.info` on a flattened cell list.  `none` models the
`IndexError` cases described above. -/
def infoOf (cells : List Cell) : Option MapInfo :=
  match cells.head? with
  | none => none
  | some c0 =>
    match cells.findIdx? (fun c => !decide (c.X = c0.X)) with
    | none => none
    | some ny =>
      match cells.getLast?, cells.get? ny, cells.get? 1 with
      | some clast, some cny, some c1 =>
        some { x0 := c0.X, x1 := clast.X, y0 := c0.Y, y1 := clast.Y,
               total := cells.length, nx := cells.length / ny, ny := ny,
               dx := cny.X - c0.X, dy := c1.Y - c0.Y }
      | _, _, _ => none

/-! ## `DataMap.cut` (coordinate ranges, `input_is_cells=False`)

The requested ranges are clamped to the stored bounding box, converted to a
cell-index range with the `ceil(.. + 0.5)` / `floor(.. - 0.5)` formulas,
and a numpy basic slice of the cell array is taken (a view).  Finally
`data_map._info = data_map.info` recomputes the info of the slice: on an
empty slice this raises `IndexError` (`none`). -/

/-- Effective start index of the Python slice `a : b` on a sequence of
length `len` (negative indices wrap, everything is clamped to `[0, len]`). -/
def pySliceIdx (len : ℕ) (a : ℤ) : ℕ :=
  if a < 0 then ((len : ℤ) + a).toNat else min a.toNat len

/-- `min_cell = max(0, ceil((cut - start)/size + 0.5))`. -/
def minCellIdx (cut start size : ℚ) : ℤ :=
  max 0 ⌈(cut - start) / size + 1 / 2⌉

/-- `max_cell = min(top_cell, floor((cut - start)/size - 0.5))`. -/
def maxCellIdx (cut start size : ℚ) (top : ℕ) : ℤ :=
  min (top : ℤ) ⌊(cut - start) / size - 1 / 2⌋

/-- The sub-grid `cells[ylo:yhi, xlo:xhi]` (a view of the source array). -/
def slice2 (g : Grid) (ylo yhi xlo xhi : ℕ) : Grid :=
  ⟨yhi - ylo, xhi - xlo, fun i j => g.cell (ylo + i) (xlo + j)⟩

/-- The sub-grid view selected by `cut`: the requested ranges are clamped
to the stored bounding box, converted to cell indices, and a numpy basic
slice is taken. -/
def cutSlice (g : Grid) (info : MapInfo) (cutx cuty : ℚ × ℚ) : Grid :=
  slice2 g
    (pySliceIdx g.rows (minCellIdx (max cuty.1 info.y0) info.y0 info.dy))
    (pySliceIdx g.rows
      (maxCellIdx (min cuty.2 info.y1) info.y0 info.dy info.ny + 1))
    (pySliceIdx g.cols (minCellIdx (max cutx.1 info.x0) info.x0 info.dx))
    (pySliceIdx g.cols
      (maxCellIdx (min cutx.2 info.x1) info.x0 info.dx info.nx + 1))

/-- `DataMap.cut(cutx=.., cuty=..)` with coordinate ranges.  The stored
`_info` of the source is recomputed here from the cells (as `DataMap.__init__`
does on load); then `data_map._info = data_map.info` recomputes the info of
the slice, raising `IndexError` (`none`) when the slice is empty. -/
def cutPy (g : Grid) (cutx cuty : ℚ × ℚ) : Option Grid :=
  (infoOf (flattenT g)).bind fun info =>
    (infoOf (flattenT (cutSlice g info cutx cuty))).map fun _ =>
      cutSlice g info cutx cuty

/-! ## `DataMap.combine(nx, ny)`

`combine` creates the output as a numpy *view* `self.cells[0:ny', 0:nx']`
of the source array and then assigns each combined cell into that view, so
every write lands in the source array as well.  Each block is read through
`self.cut(..., input_is_cells=True)`, which recomputes the info of the
block (possibly raising), and reduced by `combine_cells`. -/

/-- `combine_cells`: fold the block's cells. `X`, `Y`, `N`, `M` are summed,
`U`, `V` accumulate `M·U`, `T` accumulates `T·N`, `droplet` is OR-ed; then
`X`, `Y` are divided by the cell count, `U`, `V` by the total mass when it
is positive, `T` by the total atom count when it is positive. -/
def combineCells (cs : List Cell) : Cell :=
  { X := (cs.map (fun c => c.X)).sum / cs.length,
    Y := (cs.map (fun c => c.Y)).sum / cs.length,
    N := (cs.map (fun c => c.N)).sum,
    M := (cs.map (fun c => c.M)).sum,
    T := if 0 < (cs.map (fun c => c.N)).sum
         then (cs.map (fun c => c.T * c.N)).sum / (cs.map (fun c => c.N)).sum
         else (cs.map (fun c => c.T * c.N)).sum,
    U := if 0 < (cs.map (fun c => c.M)).sum
         then (cs.map (fun c => c.M * c.U)).sum / (cs.map (fun c => c.M)).sum
         else (cs.map (fun c => c.M * c.U)).sum,
    V := if 0 < (cs.map (fun c => c.M)).sum
         then (cs.map (fun c => c.M * c.V)).sum / (cs.map (fun c => c.M)).sum
         else (cs.map (fun c => c.M * c.V)).sum,
    droplet := cs.any fun c => c.droplet }

/-- The cells of the block of output cell `(x, y)`: rows
`y·ny .. y·ny+ny-1`, columns `x·nx .. x·nx+nx-1` of the current array, in
`FlatArray` (column-major) order, read from the live cell function. -/
def blockList (cf : ℕ → ℕ → Cell) (x y nx ny : ℕ) : List Cell :=
  (List.range nx).flatMap fun c => (List.range ny).map fun r =>
    cf (y * ny + r) (x * nx + c)

/-- Overwrite the cell at `(i0, j0)` of a cell array (the effect of the
assignment `combined.cells[y, x] = ...` through the view). -/
def setCell (cf : ℕ → ℕ → Cell) (i0 j0 : ℕ) (v : Cell) : ℕ → ℕ → Cell :=
  fun i j => if i = i0 ∧ j = j0 then v else cf i j

/-- One iteration of the combine loop at output cell `p = (x, y)`: cut the
block (recomputing its info, which can raise → `none`), combine it, and
write the result through the view into the source array at `(y, x)`. -/
def combineStep (nx ny : ℕ) (st : Option (ℕ → ℕ → Cell)) (p : ℕ × ℕ) :
    Option (ℕ → ℕ → Cell) :=
  st.bind fun cf =>
    (infoOf (blockList cf p.1 p.2 nx ny)).map fun _ =>
      setCell cf p.2 p.1 (combineCells (blockList cf p.1 p.2 nx ny))

/-- The iteration order of the combine loop: `for x in range(nx'):
for y in range(ny'):`. -/
def combineOrder (nxq nyq : ℕ) : List (ℕ × ℕ) :=
  (List.range nxq).flatMap fun x => (List.range nyq).map fun y => (x, y)

/-- `DataMap.combine(nx, ny)`.  Returns the combined grid *and* the state of
the source grid after the call (the writes go through the view into the
source).  `none` models an escaping exception: `nx = 0` or `ny = 0`
(`ZeroDivisionError` in `int(n/num_combine)`), or an `IndexError` from a
block's info. -/
def combinePy (g : Grid) (nx ny : ℕ) : Option (Grid × Grid) :=
  if nx = 0 ∨ ny = 0 then none
  else
    ((combineOrder (g.cols / nx) (g.rows / ny)).foldl (combineStep nx ny)
      (some g.cell)).map fun cf =>
        (⟨g.rows / ny, g.cols / nx, cf⟩, ⟨g.rows, g.cols, cf⟩)

/-! ## `DataMap.com`

Sums `X·M`, `Y·M`, `M` over droplet cells, then divides by the total mass.
Only `KeyError` is caught; with zero accumulated mass the division raises
an uncaught `ZeroDivisionError`, modelled by `none`. -/

/-- Total mass accumulated over droplet cells. -/
def dropletMass (g : Grid) : ℚ :=
  ((flattenT g).filter (fun c => c.droplet)).foldl (fun s c => s + c.M) 0

/-- `DataMap.com`: the mass-weighted centre of the droplet cells, or `none`
(uncaught `ZeroDivisionError`) when the accumulated droplet mass is zero. -/
def comPy (g : Grid) : Option (ℚ × ℚ) :=
  let dl := (flattenT g).filter fun c => c.droplet
  let m := dl.foldl (fun s c => s + c.M) 0
  if m = 0 then none
  else some ((dl.foldl (fun s c => s + c.X * c.M) 0) / m,
             (dl.foldl (fun s c => s + c.Y * c.M) 0) / m)

/-! ## `DataMap._calc_cell_shear`

All cells first get `shear = 0`; then every droplet cell at least `N` cells
from every edge gets the strain-rate magnitude
`sqrt(2*(dudx² + dvdy² - (1/3)(dudx+dvdy)²) + (dudy+dvdx)²)` from central
differences over `± N` cells, unless some stencil cell is not a droplet (or
a division fails), in which case the `except Exception` handler leaves 0.
Since `Real.sqrt` is noncomputable, the embedding carries the *argument* of
the square root (`shearSqField`); the code's `shear` is its square root, so
`shear = 0` iff `shearSqField = 0`, and `shear` is a well-defined real
number (never NaN) iff `shearSqField ≥ 0`. -/

/-- `calc_central_difference` of `_calc_cell_shear` for stencil cells `p0`
(at `-N`) and `p1` (at `+N`): raises (`none`) when either stencil cell is
not a droplet, returns `0` for a zero difference without dividing, and
otherwise divides by `2·N·d` (raising on a zero denominator). -/
def centralDiff (sel : Cell → ℚ) (massFlow : Bool) (N : ℕ) (d : ℚ)
    (p0 p1 : Cell) : Option ℚ :=
  if p0.droplet = false then none
  else if p1.droplet = false then none
  else
    let diff : ℚ :=
      if massFlow then
        (if p0.M + p1.M = 0 then 0
         else (p1.M * sel p1 - p0.M * sel p0) / (p0.M + p1.M))
      else sel p1 - sel p0
    if diff = 0 then some 0
    else if 2 * (N : ℚ) * d = 0 then none
    else some (diff / (2 * (N : ℚ) * d))

/-- The 2D strain-rate magnitude squared (the argument of `np.sqrt` in
`shear_in_cell`). -/
def strainSq (dudx dvdx dudy dvdy : ℚ) : ℚ :=
  2 * (dudx ^ 2 + dvdy ^ 2 - (1 / 3) * (dudx + dvdy) ^ 2) + (dudy + dvdx) ^ 2

/-- `shear_in_cell` squared: the central differences are computed in source
order (`dudx`, `dvdx`, `dudy`, `dvdy`); the first raise (`none`) makes the
`except Exception` handler return 0. -/
def shearInCellSq (g : Grid) (massFlow : Bool) (N : ℕ) (dx dy : ℚ)
    (i j : ℕ) : ℚ :=
  match centralDiff (fun c => c.U) massFlow N dx (g.cell i (j - N)) (g.cell i (j + N)) with
  | none => 0
  | some dudx =>
    match centralDiff (fun c => c.V) massFlow N dx (g.cell i (j - N)) (g.cell i (j + N)) with
    | none => 0
    | some dvdx =>
      match centralDiff (fun c => c.U) massFlow N dy (g.cell (i - N) j) (g.cell (i + N) j) with
      | none => 0
      | some dudy =>
        match centralDiff (fun c => c.V) massFlow N dy (g.cell (i - N) j) (g.cell (i + N) j) with
        | none => 0
        | some dvdy => strainSq dudx dvdx dudy dvdy

/-- The squared shear field written by `_calc_cell_shear`: zero-initialised,
and only droplet cells of the interior slab `cells[N:-N, N:-N]` are
recomputed. -/
def shearSqField (g : Grid) (massFlow : Bool) (N : ℕ) (dx dy : ℚ)
    (i j : ℕ) : ℚ :=
  if N ≤ i ∧ i + N < g.rows ∧ N ≤ j ∧ j + N < g.cols ∧ (g.cell i j).droplet = true
  then shearInCellSq g massFlow N dx dy i j
  else 0

/-! ## Concrete grids used as counterexamples and witnesses -/

/-- A default cell with everything zero and no droplet flag. -/
def cell0 : Cell :=
  { X := 0, Y := 0, N := 0, T := 0, M := 0, U := 0, V := 0, droplet := false }

/-- 3 rows × 2 columns; rows 0 and 1 carry mass 1, row 2 is empty.  After
the mass pass, rows 0–1 are droplet and row 2 is not. -/
def gridTwoRows : Grid :=
  ⟨3, 2, fun i j =>
    { cell0 with X := j, Y := i, N := 1, M := if i = 2 then 0 else 1 }⟩

/-- 2 rows × 2 columns with distinct column positions, unit masses; only
the top-right cell is droplet-flagged. -/
def gridTwoByTwo : Grid :=
  ⟨2, 2, fun i j =>
    { cell0 with
      X := j, Y := i, N := 1, M := 1, droplet := decide (i = 1 ∧ j = 1) }⟩

/-- 3 rows × 3 columns, positions `X = j`, `Y = i`, cell size 1. -/
def gridThreeByThree : Grid :=
  ⟨3, 3, fun i j => { cell0 with X := j, Y := i, N := 1, M := 1 }⟩

/-- A single cell of positive mass whose droplet flag is `false`. -/
def gridOneFalse : Grid :=
  ⟨1, 1, fun _ _ => { cell0 with M := 5 }⟩

/-- 5 rows × 2 columns; rows 0, 1, 3, 4 carry mass, the middle row 2 is
empty, so classification leaves a vertical gap in the droplet rows. -/
def gridGap : Grid :=
  ⟨5, 2, fun i j =>
    { cell0 with X := j, Y := i, N := 1, M := if i = 2 then 0 else 1 }⟩

/-- 3 rows × 3 columns of droplet cells with a nontrivial flow field. -/
def gridFlow : Grid :=
  ⟨3, 3, fun i j =>
    { cell0 with
      X := j, Y := i, N := 1, M := 1, U := j, V := i, droplet := true }⟩

/-- A 1 × 2 grid with no droplet cells at all. -/
def gridNoDrop : Grid :=
  ⟨1, 2, fun i j => { cell0 with X := j, Y := i, M := 3 }⟩

/-- The block of four cells of concrete scenario 3: equal masses 10,
velocities 1, 2, 3, 4. -/
def cellsScenario3 : List Cell :=
  [{ cell0 with M := 10, U := 1 }, { cell0 with M := 10, U := 2 },
   { cell0 with M := 10, U := 3 }, { cell0 with M := 10, U := 4 }]

/-! ## Lemmas about the connectivity walk -/

theorem walkDir_iff (f : Flags) (i orow : ℕ) (l : List ℕ) :
    walkDir f i orow l = true ↔
      ∃ k, k < l.length ∧ f orow (l.getD k 0) = true ∧
        ∀ m, m ≤ k → f i (l.getD m 0) = true := by
  induction l with
  | nil => simp [walkDir]
  | cons c rest ih =>
    cases hfc : f i c with
    | false =>
      simp only [walkDir, hfc]
      rw [if_neg Bool.false_ne_true]
      constructor
      · intro h; exact absurd h (by simp)
      · rintro ⟨k, -, -, hall⟩
        have h0 := hall 0 (Nat.zero_le _)
        rw [List.getD_cons_zero, hfc] at h0
        exact absurd h0 (by simp)
    | true =>
      cases hfo : f orow c with
      | true =>
        simp only [walkDir, hfc, hfo, if_true]
        constructor
        · intro _
          refine ⟨0, by simp, by simpa using hfo, ?_⟩
          intro m hm
          interval_cases m
          simpa using hfc
        · intro _; simp
      | false =>
        simp only [walkDir, hfc, hfo, if_true]
        rw [if_neg Bool.false_ne_true]
        rw [ih]
        constructor
        · rintro ⟨k, hk, hsup, hall⟩
          refine ⟨k + 1, by simpa using hk, by simpa using hsup, ?_⟩
          intro m hm
          cases m with
          | zero => simpa using hfc
          | succ m' => simpa using hall m' (by omega)
        · rintro ⟨k, hk, hsup, hall⟩
          cases k with
          | zero =>
            rw [List.getD_cons_zero, hfo] at hsup
            exact absurd hsup (by simp)
          | succ k' =>
            refine ⟨k', by simpa using hk, by simpa using hsup, ?_⟩
            intro m hm
            have := hall (m + 1) (by omega)
            simpa using this

theorem walkDir_mono {f g : Flags} (hle : ∀ a b, g a b = true → f a b = true)
    (i orow : ℕ) (l : List ℕ) (h : walkDir g i orow l = true) :
    walkDir f i orow l = true := by
  induction l with
  | nil => simp [walkDir] at h
  | cons c rest ih =>
    have hgc : g i c = true := by
      by_contra hc
      have hc' : g i c = false := by revert hc; cases g i c <;> simp
      simp [walkDir, hc'] at h
    have hfc : f i c = true := hle _ _ hgc
    simp only [walkDir, hgc, if_true] at h
    simp only [walkDir, hfc, if_true]
    cases hgo : g orow c with
    | true => simp [hle _ _ hgo]
    | false =>
      rw [hgo, if_neg Bool.false_ne_true] at h
      cases hfo : f orow c with
      | true => simp
      | false => simpa using ih h

theorem insideCheck_iff (nrows ncols w : ℕ) (f : Flags) (i j : ℕ) :
    insideCheck nrows ncols w f i j = true ↔
      ∃ orow ∈ checkRows nrows i,
        walkDir f i orow (colsRight ncols w j) = true ∨
        walkDir f i orow (colsLeft w j) = true := by
  simp only [insideCheck, List.any_eq_true, List.mem_cons, List.mem_singleton,
    List.not_mem_nil]
  constructor
  · rintro ⟨orow, horow, dir, hdir, hwalk⟩
    rcases hdir with rfl | rfl | hfalse
    · exact ⟨orow, horow, Or.inl hwalk⟩
    · exact ⟨orow, horow, Or.inr hwalk⟩
    · cases hfalse
  · rintro ⟨orow, horow, hwalk | hwalk⟩
    · exact ⟨orow, horow, colsRight ncols w j, by simp, hwalk⟩
    · exact ⟨orow, horow, colsLeft w j, by simp, hwalk⟩

theorem colsLeft_getD {w j m : ℕ} (h : m < min (w + 1) (j + 1)) :
    (colsLeft w j).getD m 0 = j - m := by
  have hlen : m < (colsLeft w j).length := by
    simp [colsLeft]
    omega
  rw [List.getD_eq_getElem?_getD, List.getElem?_eq_getElem hlen]
  simp [colsLeft, List.getElem_range']

theorem colsRight_getD {ncols w j m : ℕ} (h : m < min (w + 1) (ncols - j)) :
    (colsRight ncols w j).getD m 0 = j + m := by
  have hlen : m < (colsRight ncols w j).length := by
    simp [colsRight]
    omega
  rw [List.getD_eq_getElem?_getD, List.getElem?_eq_getElem hlen]
  simp [colsRight, List.getElem_range']

/-- A successful connectivity test implies the cell's own flag is set: both
walk direction lists start at the cell's own column. -/
theorem insideCheck_self {nrows ncols w : ℕ} {f : Flags} {i j : ℕ}
    (h : insideCheck nrows ncols w f i j = true) : f i j = true := by
  rcases (insideCheck_iff nrows ncols w f i j).1 h with ⟨orow, -, hwalk | hwalk⟩
  · rcases (walkDir_iff f i orow _).1 hwalk with ⟨k, hk, -, hall⟩
    have h0 := hall 0 (Nat.zero_le _)
    have hk0 : 0 < min (w + 1) (ncols - j) := by
      have := Nat.lt_of_le_of_lt (Nat.zero_le k) hk
      simpa [colsRight] using this
    rw [colsRight_getD hk0] at h0
    simpa using h0
  · rcases (walkDir_iff f i orow _).1 hwalk with ⟨k, hk, -, hall⟩
    have h0 := hall 0 (Nat.zero_le _)
    have hk0 : 0 < min (w + 1) (j + 1) := by
      have hlt := Nat.lt_of_le_of_lt (Nat.zero_le k) hk
      simp only [colsLeft, List.length_map, List.length_range'] at hlt
      exact hlt
    rw [colsLeft_getD hk0] at h0
    rw [Nat.sub_zero] at h0
    exact h0

theorem insideCheck_mono {nrows ncols w : ℕ} {f g : Flags}
    (hle : ∀ a b, g a b = true → f a b = true) {i j : ℕ}
    (h : insideCheck nrows ncols w g i j = true) :
    insideCheck nrows ncols w f i j = true := by
  rcases (insideCheck_iff nrows ncols w g i j).1 h with ⟨orow, horow, hwalk | hwalk⟩
  · exact (insideCheck_iff nrows ncols w f i j).2
      ⟨orow, horow, Or.inl (walkDir_mono hle _ _ _ hwalk)⟩
  · exact (insideCheck_iff nrows ncols w f i j).2
      ⟨orow, horow, Or.inr (walkDir_mono hle _ _ _ hwalk)⟩

theorem mem_checkRows {nrows i orow : ℕ} :
    orow ∈ checkRows nrows i ↔
      (orow = i + 1 ∧ i + 1 < nrows) ∨ (orow + 1 = i) := by
  simp only [checkRows, List.mem_append]
  constructor
  · intro h
    rcases h with h | h
    · by_cases hc : i + 1 < nrows
      · simp [hc] at h; omega
      · simp [hc] at h
    · by_cases hc : 1 ≤ i
      · simp [hc] at h; omega
      · simp [hc] at h
  · intro h
    rcases h with ⟨rfl, hc⟩ | h
    · left; simp [hc]
    · right
      have hc : 1 ≤ i := by omega
      simp [hc]
      omega

/-- The adjacency relation of `checkRows` is symmetric for in-bounds rows. -/
theorem checkRows_symm {nrows i orow : ℕ} (hi : i < nrows)
    (h : orow ∈ checkRows nrows i) : i ∈ checkRows nrows orow := by
  rw [mem_checkRows] at h ⊢
  rcases h with ⟨rfl, hc⟩ | h
  · right; omega
  · left; omega

theorem checkRows_lt {nrows i orow : ℕ} (hi : i < nrows)
    (h : orow ∈ checkRows nrows i) : orow < nrows := by
  rcases mem_checkRows.1 h with ⟨rfl, hc⟩ | hc
  · exact hc
  · omega

/-- The hard direction of the invariance of the connectivity test: whenever
the test succeeds on flags `f`, every cell of the witnessing walk (the
contiguous own-row cells up to the support column, and the adjacent-row
support cell) itself passes the test on `f`; therefore the test also
succeeds on any flags `g` that keep every `f`-droplet passing the test. -/
theorem insideCheck_of_snap (nrows ncols w : ℕ) (f g : Flags)
    (H2 : ∀ a b, f a b = true → insideCheck nrows ncols w f a b = true →
      g a b = true)
    {i j : ℕ} (hi : i < nrows) (hj : j < ncols)
    (h : insideCheck nrows ncols w f i j = true) :
    insideCheck nrows ncols w g i j = true := by
  rcases (insideCheck_iff nrows ncols w f i j).1 h with ⟨orow, horow, hwalk | hwalk⟩
  · -- rightward walk: support column is j + k
    rcases (walkDir_iff f i orow _).1 hwalk with ⟨k, hk, hsup, hall⟩
    simp only [colsRight, List.length_range'] at hk
    rw [colsRight_getD hk] at hsup
    have hchain : ∀ m, m ≤ k → f i (j + m) = true := by
      intro m hm
      have hb := hall m hm
      rwa [colsRight_getD (by omega)] at hb
    have hchainCheck : ∀ m, m ≤ k →
        insideCheck nrows ncols w f i (j + m) = true := by
      intro m hm
      apply (insideCheck_iff nrows ncols w f i (j + m)).2
      refine ⟨orow, horow, Or.inl ?_⟩
      apply (walkDir_iff f i orow _).2
      refine ⟨k - m, ?_, ?_, ?_⟩
      · simp only [colsRight, List.length_range']; omega
      · rw [colsRight_getD (by simp only [colsRight, List.length_range'] at *; omega)]
        have he : j + m + (k - m) = j + k := by omega
        rw [he]; exact hsup
      · intro m' hm'
        rw [colsRight_getD (by omega)]
        have he : j + m + m' = j + (m + m') := by omega
        rw [he]; exact hchain (m + m') (by omega)
    have hsupCheck : insideCheck nrows ncols w f orow (j + k) = true := by
      apply (insideCheck_iff nrows ncols w f orow (j + k)).2
      refine ⟨i, checkRows_symm hi horow, Or.inl ?_⟩
      apply (walkDir_iff f orow i _).2
      refine ⟨0, ?_, ?_, ?_⟩
      · simp only [colsRight, List.length_range']; omega
      · rw [colsRight_getD (by omega), Nat.add_zero]
        exact hchain k le_rfl
      · intro m' hm'
        interval_cases m'
        rw [colsRight_getD (by omega), Nat.add_zero]
        exact hsup
    apply (insideCheck_iff nrows ncols w g i j).2
    refine ⟨orow, horow, Or.inl ?_⟩
    apply (walkDir_iff g i orow _).2
    refine ⟨k, ?_, ?_, ?_⟩
    · simp only [colsRight, List.length_range']; omega
    · rw [colsRight_getD hk]
      exact H2 _ _ hsup hsupCheck
    · intro m hm
      rw [colsRight_getD (by omega)]
      exact H2 _ _ (hchain m hm) (hchainCheck m hm)
  · -- leftward walk: support column is j - k
    rcases (walkDir_iff f i orow _).1 hwalk with ⟨k, hk, hsup, hall⟩
    simp only [colsLeft, List.length_map, List.length_range'] at hk
    rw [colsLeft_getD hk] at hsup
    have hkj : k ≤ j := by omega
    have hchain : ∀ m, m ≤ k → f i (j - m) = true := by
      intro m hm
      have hb := hall m hm
      rwa [colsLeft_getD (by omega)] at hb
    have hchainCheck : ∀ m, m ≤ k →
        insideCheck nrows ncols w f i (j - m) = true := by
      intro m hm
      apply (insideCheck_iff nrows ncols w f i (j - m)).2
      refine ⟨orow, horow, Or.inr ?_⟩
      apply (walkDir_iff f i orow _).2
      refine ⟨k - m, ?_, ?_, ?_⟩
      · simp only [colsLeft, List.length_map, List.length_range']; omega
      · rw [colsLeft_getD (by omega)]
        have he : j - m - (k - m) = j - k := by omega
        rw [he]; exact hsup
      · intro m' hm'
        rw [colsLeft_getD (by omega)]
        have he : j - m - m' = j - (m + m') := by omega
        rw [he]; exact hchain (m + m') (by omega)
    have hsupCheck : insideCheck nrows ncols w f orow (j - k) = true := by
      apply (insideCheck_iff nrows ncols w f orow (j - k)).2
      refine ⟨i, checkRows_symm hi horow, Or.inl ?_⟩
      apply (walkDir_iff f orow i _).2
      refine ⟨0, ?_, ?_, ?_⟩
      · simp only [colsRight, List.length_range']; omega
      · rw [colsRight_getD (by omega), Nat.add_zero]
        exact hchain k le_rfl
      · intro m' hm'
        interval_cases m'
        rw [colsRight_getD (by omega), Nat.add_zero]
        exact hsup
    apply (insideCheck_iff nrows ncols w g i j).2
    refine ⟨orow, horow, Or.inr ?_⟩
    apply (walkDir_iff g i orow _).2
    refine ⟨k, ?_, ?_, ?_⟩
    · simp only [colsLeft, List.length_map, List.length_range']; omega
    · rw [colsLeft_getD hk]
      exact H2 _ _ hsup hsupCheck
    · intro m hm
      rw [colsLeft_getD (by omega)]
      exact H2 _ _ (hchain m hm) (hchainCheck m hm)

/-- Invariance of the connectivity test under flag assignments lying
between the snapshot pass result and the pre-pass flags. -/
theorem insideCheck_invariant (nrows ncols w : ℕ) (f g : Flags)
    (H1 : ∀ a b, g a b = true → f a b = true)
    (H2 : ∀ a b, f a b = true → insideCheck nrows ncols w f a b = true →
      g a b = true)
    {i j : ℕ} (hi : i < nrows) (hj : j < ncols) :
    insideCheck nrows ncols w g i j = insideCheck nrows ncols w f i j := by
  by_cases hf : insideCheck nrows ncols w f i j = true
  · rw [hf]
    exact insideCheck_of_snap nrows ncols w f g H2 hi hj hf
  · have hf' : insideCheck nrows ncols w f i j = false := by
      revert hf; cases insideCheck nrows ncols w f i j <;> simp
    rw [hf']
    by_contra hg
    have hg' : insideCheck nrows ncols w g i j = true := by
      revert hg; cases insideCheck nrows ncols w g i j <;> simp
    exact hf (insideCheck_mono H1 hg')

/-- Running the in-place pass over any duplicate-free list of in-bounds
positions, starting from a state `cur` that agrees with the pre-pass flags
`f` on unprocessed positions and lies between the snapshot result and `f`
everywhere, writes the *snapshot* test value at every processed position
and leaves everything else unchanged. -/
theorem insideRun_mix (nrows ncols w : ℕ) (f : Flags) :
    ∀ (order : List (ℕ × ℕ)) (cur : Flags), order.Nodup →
    (∀ p ∈ order, p.1 < nrows ∧ p.2 < ncols) →
    (∀ a b, cur a b = true → f a b = true) →
    (∀ a b, f a b = true → insideCheck nrows ncols w f a b = true →
      cur a b = true) →
    (∀ p ∈ order, cur p.1 p.2 = f p.1 p.2) →
    ∀ a b, insideRun nrows ncols w order cur a b =
      if (a, b) ∈ order then insideCheck nrows ncols w f a b else cur a b := by
  intro order
  induction order with
  | nil =>
    intro cur _ _ _ _ _ a b
    simp [insideRun]
  | cons p rest ih =>
    intro cur hnd hbnd H1 H2 H4 a b
    have hpbnd := hbnd p (List.mem_cons_self p rest)
    have hkey : insideCheck nrows ncols w cur p.1 p.2 =
        insideCheck nrows ncols w f p.1 p.2 :=
      insideCheck_invariant nrows ncols w f cur H1 H2 hpbnd.1 hpbnd.2
    have hstep : insideRun nrows ncols w (p :: rest) cur =
        insideRun nrows ncols w rest (insideStep nrows ncols w cur p) := rfl
    set cur' := insideStep nrows ncols w cur p with hc'
    have hcur' : ∀ a' b', cur' a' b' =
        if a' = p.1 ∧ b' = p.2 then insideCheck nrows ncols w f p.1 p.2
        else cur a' b' := by
      intro a' b'
      rw [hc']
      simp only [insideStep, setF, hkey]
    have hpnotin : p ∉ rest := (List.nodup_cons.1 hnd).1
    have H1' : ∀ a' b', cur' a' b' = true → f a' b' = true := by
      intro a' b' hv
      rw [hcur'] at hv
      by_cases hp : a' = p.1 ∧ b' = p.2
      · rw [if_pos hp] at hv
        rcases hp with ⟨rfl, rfl⟩
        exact insideCheck_self hv
      · rw [if_neg hp] at hv
        exact H1 _ _ hv
    have H2' : ∀ a' b', f a' b' = true →
        insideCheck nrows ncols w f a' b' = true → cur' a' b' = true := by
      intro a' b' hfv hcv
      rw [hcur']
      by_cases hp : a' = p.1 ∧ b' = p.2
      · rw [if_pos hp]
        rcases hp with ⟨rfl, rfl⟩
        exact hcv
      · rw [if_neg hp]
        exact H2 _ _ hfv hcv
    have H4' : ∀ q ∈ rest, cur' q.1 q.2 = f q.1 q.2 := by
      intro q hq
      rw [hcur']
      have hqp : ¬(q.1 = p.1 ∧ q.2 = p.2) := by
        intro hqq
        apply hpnotin
        have : q = p := Prod.ext hqq.1 hqq.2
        rwa [this] at hq
      rw [if_neg hqp]
      exact H4 q (List.mem_cons_of_mem p hq)
    have hres := ih cur' (List.nodup_cons.1 hnd).2
      (fun q hq => hbnd q (List.mem_cons_of_mem p hq)) H1' H2' H4' a b
    rw [hstep, hres]
    by_cases hmem : (a, b) ∈ rest
    · rw [if_pos hmem, if_pos (List.mem_cons_of_mem p hmem)]
    · rw [if_neg hmem]
      by_cases hp : (a, b) = p
      · rw [if_pos (by rw [hp]; exact List.mem_cons_self p rest)]
        rw [hcur']
        have hx : a = p.1 ∧ b = p.2 := by
          constructor
          · rw [← hp]
          · rw [← hp]
        rw [if_pos hx, hx.1, hx.2]
      · have hnmem : (a, b) ∉ p :: rest := by
          intro hin
          rcases List.mem_cons.1 hin with hin | hin
          · exact hp hin
          · exact hmem hin
        rw [if_neg hnmem, hcur']
        have hx : ¬(a = p.1 ∧ b = p.2) := by
          intro hxx
          exact hp (Prod.ext hxx.1 hxx.2)
        rw [if_neg hx]

/-- A position pair is in the row-major order list iff it is in bounds. -/
theorem mem_rowMajor {nrows ncols : ℕ} {p : ℕ × ℕ} :
    p ∈ rowMajor nrows ncols ↔ p.1 < nrows ∧ p.2 < ncols := by
  obtain ⟨a, b⟩ := p
  simp [rowMajor, List.mem_flatMap, List.mem_range]

/-- The row-major order list has no duplicates. -/
theorem rowMajor_nodup (nrows ncols : ℕ) : (rowMajor nrows ncols).Nodup := by
  have he : rowMajor nrows ncols =
      (List.range nrows).product (List.range ncols) := rfl
  rw [he]
  exact List.Nodup.product (List.nodup_range nrows) (List.nodup_range ncols)

/-- The in-place connectivity pass, run over *any* permutation of the cell
positions, produces exactly the flags of the two-phase snapshot pass. -/
theorem insideRun_eq_snap (nrows ncols w : ℕ) (f : Flags)
    (order : List (ℕ × ℕ)) (hperm : order.Perm (rowMajor nrows ncols))
    (a b : ℕ) :
    insideRun nrows ncols w order f a b = snapPass nrows ncols w f a b := by
  have hnd : order.Nodup := hperm.nodup_iff.2 (rowMajor_nodup nrows ncols)
  have hmem : ∀ p : ℕ × ℕ, p ∈ order ↔ p.1 < nrows ∧ p.2 < ncols := by
    intro p
    rw [hperm.mem_iff, mem_rowMajor]
  have hmix := insideRun_mix nrows ncols w f order f hnd
    (fun p hp => (hmem p).1 hp)
    (fun _ _ h => h) (fun _ _ hf _ => hf)
    (fun _ _ => rfl) a b
  rw [hmix, snapPass]
  by_cases hin : a < nrows ∧ b < ncols
  · rw [if_pos hin, if_pos ((hmem (a, b)).2 hin)]
  · rw [if_neg hin, if_neg (fun hc => hin ((hmem (a, b)).1 hc))]

/-- The source's row-major in-place pass equals the snapshot pass. -/
theorem insidePass_eq_snap (nrows ncols w : ℕ) (f : Flags) (a b : ℕ) :
    insidePass nrows ncols w f a b = snapPass nrows ncols w f a b :=
  insideRun_eq_snap nrows ncols w f (rowMajor nrows ncols) (List.Perm.refl _) a b

/-! ## Claim C2 -/

/-- C2: within-pass order independence.  The connectivity pass (Pass 3) as the
source runs it — an in-place, cell-by-cell fold over the live flag array in
row-major order — produces for every grid and window exactly the flags of a
two-phase reference implementation that first reads all pre-pass flags and
then writes every result (`snapPass`); moreover, folding over the cell
positions in *any* order (any permutation of the row-major list) yields the
same final flags.  Passes 1 and 2 read only the cell they write, so their
order independence is immediate; this theorem settles the one pass that
reads its neighbours. -/
theorem C2_pass_order_independent (nrows ncols w : ℕ) (f : Flags)
    (order : List (ℕ × ℕ)) (horder : order.Perm (rowMajor nrows ncols)) :
    (∀ a b, insidePass nrows ncols w f a b = snapPass nrows ncols w f a b) ∧
    (∀ a b, insideRun nrows ncols w order f a b = snapPass nrows ncols w f a b) :=
  ⟨fun a b => insidePass_eq_snap nrows ncols w f a b,
   fun a b => insideRun_eq_snap nrows ncols w f order horder a b⟩

/-- Witness for C2: on a concrete 2 × 2 all-droplet grid, running the pass
in *reverse* row-major order gives the same flags as the two-phase pass. -/
theorem C2_witness :
    insideRun 2 2 1 ((rowMajor 2 2).reverse) (fun _ _ => true) 0 0 =
      snapPass 2 2 1 (fun _ _ => true) 0 0 :=
  (C2_pass_order_independent 2 2 1 (fun _ _ => true) ((rowMajor 2 2).reverse)
    (List.reverse_perm (rowMajor 2 2))).2 0 0

/-! ## Claim C7 -/

/-- Counterexample to C7 as stated: the mass filter (Pass 2,
`_cells_min_mass`) recomputes every flag from the cell's mass alone,
ignoring the previous flag, so a cell whose droplet flag is `false` before
the pass but whose mass passes the threshold is promoted back to `true`
(here: a single cell with `M = 5`, flag `false`, `min_mass = 0`). -/
theorem C7_counterexample :
    (gridOneFalse.cell 0 0).droplet = false ∧
    ((gridMass 0 gridOneFalse).cell 0 0).droplet = true := by decide

/-- C7 (amended): the connectivity pass (Pass 3) is monotonically
narrowing — a cell marked droplet after Pass 3 was marked droplet before it
(i.e. after Pass 2) — because both walk directions examine the cell's own
flag first.  Pass 2, by contrast, reassigns each flag from the mass alone
and can promote a previously-`false` flag (see the counterexample). -/
theorem C7_pass3_never_promotes (nrows ncols w : ℕ) (f : Flags) (i j : ℕ)
    (h : insidePass nrows ncols w f i j = true) : f i j = true := by
  rw [insidePass_eq_snap] at h
  unfold snapPass at h
  by_cases hin : i < nrows ∧ j < ncols
  · rw [if_pos hin] at h
    exact insideCheck_self h
  · rwa [if_neg hin] at h

/-- Witness for C7: a cell kept by the pass on a 2 × 1 all-droplet strip
indeed had its flag set beforehand. -/
theorem C7_witness : (fun _ _ => true : Flags) 0 0 = true :=
  C7_pass3_never_promotes 2 1 1 (fun _ _ => true) 0 0 (by decide)

/-! ## Claim C6 -/

/-- Counterexample to C6 as stated: on a 1-row strip of 5 cells all flagged
droplet, Pass 3 does *not* leave the flags unchanged — with no adjacent
rows, `check_rows` is empty, the loop body never runs and every cell
returns `False`, so the first cell's flag (like all others) is cleared. -/
theorem C6_counterexample :
    (fun _ _ => true : Flags) 0 0 = true ∧
    insidePass 1 5 1 (fun _ _ => true) 0 0 = false := by
  constructor
  · rfl
  · decide

/-- C6 (amended): on a grid with exactly one row, the connectivity pass
clears *every* in-bounds flag: an absent adjacent row is not "unavailable"
but leaves no way to find a connection, so every cell fails the check. -/
theorem C6_single_row_cleared (ncols w : ℕ) (f : Flags) (j : ℕ)
    (hj : j < ncols) : insidePass 1 ncols w f 0 j = false := by
  rw [insidePass_eq_snap]
  unfold snapPass
  rw [if_pos ⟨Nat.one_pos, hj⟩]
  simp [insideCheck, checkRows]

/-- Witness for C6: the first cell of a 1 × 3 all-droplet strip is cleared. -/
theorem C6_witness : insidePass 1 3 2 (fun _ _ => true) 0 0 = false :=
  C6_single_row_cleared 3 2 (fun _ _ => true) 0 (by decide)

/-! ## Claim C1 -/

/-- Counterexample to C1 as stated: on a 3-row grid whose bottom two rows
survive the mass pass and whose top row is empty, the bottom-left cell is
kept by the code's connectivity pass (it sees a droplet directly above),
but the spec's two-row lookahead condition fails at it: the candidate's own
next row (row 2, two rows beyond) contains no droplet cell in any window,
and downward there is no adjacent row at all. -/
theorem C1_counterexample :
    massFlags 0 gridTwoRows 0 0 = true ∧
    insidePass 3 2 1 (massFlags 0 gridTwoRows) 0 0 = true ∧
    twoHopCond 3 2 1 (massFlags 0 gridTwoRows) 0 0 = false := by decide

/-- C1 (amended): the code's connectivity check is a *single-hop* rule.  A
cell is kept by Pass 3 exactly when, in some direction (the row above when
it exists, or the row below), there is a column `c` within the window of
width `w` around the cell such that every own-row cell between the cell and
`c` (inclusive) is a droplet and the adjacent-row cell at `c` is a droplet —
all read from the pre-pass flags (by order independence).  No two-row
lookahead is performed. -/
theorem C1_connectivity_is_single_hop (nrows ncols w : ℕ) (f : Flags)
    (i j : ℕ) (hi : i < nrows) (hj : j < ncols) :
    insidePass nrows ncols w f i j = true ↔
      ∃ orow, ((orow = i + 1 ∧ i + 1 < nrows) ∨ orow + 1 = i) ∧
        ∃ c, f orow c = true ∧
          ((j ≤ c ∧ c ≤ j + w ∧ c < ncols ∧
              ∀ m, j ≤ m → m ≤ c → f i m = true) ∨
           (c ≤ j ∧ j ≤ c + w ∧ ∀ m, c ≤ m → m ≤ j → f i m = true)) := by
  rw [insidePass_eq_snap]
  unfold snapPass
  rw [if_pos ⟨hi, hj⟩]
  rw [insideCheck_iff]
  constructor
  · rintro ⟨orow, horow, hwalk | hwalk⟩
    · rcases (walkDir_iff f i orow _).1 hwalk with ⟨k, hk, hsup, hall⟩
      simp only [colsRight, List.length_range'] at hk
      rw [colsRight_getD hk] at hsup
      refine ⟨orow, mem_checkRows.1 horow, j + k, hsup,
        Or.inl ⟨by omega, by omega, by omega, ?_⟩⟩
      intro m hjm hmc
      have hb := hall (m - j) (by omega)
      rw [colsRight_getD (by omega)] at hb
      have he : j + (m - j) = m := by omega
      rwa [he] at hb
    · rcases (walkDir_iff f i orow _).1 hwalk with ⟨k, hk, hsup, hall⟩
      simp only [colsLeft, List.length_map, List.length_range'] at hk
      rw [colsLeft_getD hk] at hsup
      refine ⟨orow, mem_checkRows.1 horow, j - k, hsup,
        Or.inr ⟨by omega, by omega, ?_⟩⟩
      intro m hcm hmj
      have hb := hall (j - m) (by omega)
      rw [colsLeft_getD (by omega)] at hb
      have he : j - (j - m) = m := by omega
      rwa [he] at hb
  · rintro ⟨orow, horow, c, hsup, hdir | hdir⟩
    · obtain ⟨hjc, hcw, hcn, hchain⟩ := hdir
      refine ⟨orow, mem_checkRows.2 horow, Or.inl ?_⟩
      apply (walkDir_iff f i orow _).2
      refine ⟨c - j, ?_, ?_, ?_⟩
      · simp only [colsRight, List.length_range']; omega
      · rw [colsRight_getD (by omega)]
        have he : j + (c - j) = c := by omega
        rw [he]; exact hsup
      · intro m hm
        rw [colsRight_getD (by omega)]
        exact hchain (j + m) (by omega) (by omega)
    · obtain ⟨hcj, hjw, hchain⟩ := hdir
      refine ⟨orow, mem_checkRows.2 horow, Or.inr ?_⟩
      apply (walkDir_iff f i orow _).2
      refine ⟨j - c, ?_, ?_, ?_⟩
      · simp only [colsLeft, List.length_map, List.length_range']; omega
      · rw [colsLeft_getD (by omega)]
        have he : j - (j - c) = c := by omega
        rw [he]; exact hsup
      · intro m hm
        rw [colsLeft_getD (by omega)]
        exact hchain (j - m) (by omega) (by omega)

/-- Witness for C1 (amended): on a 2 × 1 all-droplet grid the bottom cell is
kept, via the single-hop condition with the row above at column 0. -/
theorem C1_witness : insidePass 2 1 1 (fun _ _ => true) 0 0 = true :=
  (C1_connectivity_is_single_hop 2 1 1 (fun _ _ => true) 0 0 (by decide)
    (by decide)).2
    ⟨1, Or.inl ⟨rfl, by decide⟩, 0, rfl,
      Or.inl ⟨le_rfl, by decide, by decide, fun _ _ _ => rfl⟩⟩

/-! ## Claim C3 -/

theorem list_sum_map_mul_const (cs : List Cell) (f : Cell → ℚ) (u : ℚ) :
    (cs.map (fun c => f c * u)).sum = (cs.map f).sum * u := by
  induction cs with
  | nil => simp
  | cons a t ih => simp [List.sum_cons, ih, add_mul]

theorem list_sum_zero_of_nonneg {l : List ℚ} (h : ∀ x ∈ l, 0 ≤ x)
    (hs : l.sum = 0) : ∀ x ∈ l, x = 0 := by
  induction l with
  | nil => intro x hx; cases hx
  | cons a t ih =>
    have ha : 0 ≤ a := h a (List.mem_cons_self a t)
    have ht : 0 ≤ t.sum :=
      List.sum_nonneg fun x hx => h x (List.mem_cons_of_mem a hx)
    rw [List.sum_cons] at hs
    have ha0 : a = 0 := by linarith
    have ht0 : t.sum = 0 := by linarith
    intro x hx
    rcases List.mem_cons.1 hx with rfl | hx
    · exact ha0
    · exact ih (fun y hy => h y (List.mem_cons_of_mem a hy)) ht0 x hx

/-- C3: the combine weighted-average rules.  For a block of cells with
non-negative masses and atom counts, `combine_cells` produces velocities
equal to the mass-weighted mean `Σ(Mᵢ·Uᵢ)/ΣMᵢ` (and likewise for `V`),
exactly 0 when `ΣM = 0`; a temperature equal to the atom-count-weighted
mean `Σ(Tᵢ·Nᵢ)/ΣNᵢ`, 0 when `ΣN = 0`; and when all cells share one `U` and
`ΣM > 0`, the combined `U` is exactly that shared value. -/
theorem C3_combine_weighted_rules (cs : List Cell)
    (hM : ∀ c ∈ cs, 0 ≤ c.M) (hN : ∀ c ∈ cs, 0 ≤ c.N) :
    ((combineCells cs).U =
      if (cs.map (fun c => c.M)).sum = 0 then 0
      else (cs.map (fun c => c.M * c.U)).sum / (cs.map (fun c => c.M)).sum) ∧
    ((combineCells cs).V =
      if (cs.map (fun c => c.M)).sum = 0 then 0
      else (cs.map (fun c => c.M * c.V)).sum / (cs.map (fun c => c.M)).sum) ∧
    ((combineCells cs).T =
      if (cs.map (fun c => c.N)).sum = 0 then 0
      else (cs.map (fun c => c.T * c.N)).sum / (cs.map (fun c => c.N)).sum) ∧
    (∀ u, (∀ c ∈ cs, c.U = u) → 0 < (cs.map (fun c => c.M)).sum →
      (combineCells cs).U = u) := by
  have hMs : 0 ≤ (cs.map (fun c => c.M)).sum := by
    apply List.sum_nonneg
    intro x hx
    rcases List.mem_map.1 hx with ⟨c, hc, rfl⟩
    exact hM c hc
  have hNs : 0 ≤ (cs.map (fun c => c.N)).sum := by
    apply List.sum_nonneg
    intro x hx
    rcases List.mem_map.1 hx with ⟨c, hc, rfl⟩
    exact hN c hc
  have hMU0 : (cs.map (fun c => c.M)).sum = 0 →
      (cs.map (fun c => c.M * c.U)).sum = 0 := by
    intro h0
    apply List.sum_eq_zero
    intro x hx
    rcases List.mem_map.1 hx with ⟨c, hc, rfl⟩
    have hc0 : c.M = 0 := by
      have := list_sum_zero_of_nonneg
        (fun x hx => by
          rcases List.mem_map.1 hx with ⟨d, hd, rfl⟩
          exact hM d hd) h0
      exact this c.M (List.mem_map.2 ⟨c, hc, rfl⟩)
    rw [hc0, zero_mul]
  have hMV0 : (cs.map (fun c => c.M)).sum = 0 →
      (cs.map (fun c => c.M * c.V)).sum = 0 := by
    intro h0
    apply List.sum_eq_zero
    intro x hx
    rcases List.mem_map.1 hx with ⟨c, hc, rfl⟩
    have hc0 : c.M = 0 := by
      have := list_sum_zero_of_nonneg
        (fun x hx => by
          rcases List.mem_map.1 hx with ⟨d, hd, rfl⟩
          exact hM d hd) h0
      exact this c.M (List.mem_map.2 ⟨c, hc, rfl⟩)
    rw [hc0, zero_mul]
  have hTN0 : (cs.map (fun c => c.N)).sum = 0 →
      (cs.map (fun c => c.T * c.N)).sum = 0 := by
    intro h0
    apply List.sum_eq_zero
    intro x hx
    rcases List.mem_map.1 hx with ⟨c, hc, rfl⟩
    have hc0 : c.N = 0 := by
      have := list_sum_zero_of_nonneg
        (fun x hx => by
          rcases List.mem_map.1 hx with ⟨d, hd, rfl⟩
          exact hN d hd) h0
      exact this c.N (List.mem_map.2 ⟨c, hc, rfl⟩)
    rw [hc0, mul_zero]
  refine ⟨?_, ?_, ?_, ?_⟩
  · by_cases h0 : (cs.map (fun c => c.M)).sum = 0
    · rw [if_pos h0]
      show (if 0 < (cs.map (fun c => c.M)).sum then _ else _) = (0 : ℚ)
      rw [if_neg (by rw [h0]; exact lt_irrefl 0), hMU0 h0]
    · rw [if_neg h0]
      show (if 0 < (cs.map (fun c => c.M)).sum then _ else _) =
        (cs.map (fun c => c.M * c.U)).sum / (cs.map (fun c => c.M)).sum
      rw [if_pos (lt_of_le_of_ne hMs (Ne.symm h0))]
  · by_cases h0 : (cs.map (fun c => c.M)).sum = 0
    · rw [if_pos h0]
      show (if 0 < (cs.map (fun c => c.M)).sum then _ else _) = (0 : ℚ)
      rw [if_neg (by rw [h0]; exact lt_irrefl 0), hMV0 h0]
    · rw [if_neg h0]
      show (if 0 < (cs.map (fun c => c.M)).sum then _ else _) =
        (cs.map (fun c => c.M * c.V)).sum / (cs.map (fun c => c.M)).sum
      rw [if_pos (lt_of_le_of_ne hMs (Ne.symm h0))]
  · by_cases h0 : (cs.map (fun c => c.N)).sum = 0
    · rw [if_pos h0]
      show (if 0 < (cs.map (fun c => c.N)).sum then _ else _) = (0 : ℚ)
      rw [if_neg (by rw [h0]; exact lt_irrefl 0), hTN0 h0]
    · rw [if_neg h0]
      show (if 0 < (cs.map (fun c => c.N)).sum then _ else _) =
        (cs.map (fun c => c.T * c.N)).sum / (cs.map (fun c => c.N)).sum
      rw [if_pos (lt_of_le_of_ne hNs (Ne.symm h0))]
  · intro u hu hpos
    show (if 0 < (cs.map (fun c => c.M)).sum then _ else _) = u
    rw [if_pos hpos]
    have hmap : cs.map (fun c => c.M * c.U) = cs.map (fun c => c.M * u) := by
      apply List.map_congr_left
      intro c hc
      rw [hu c hc]
    rw [hmap, list_sum_map_mul_const cs (fun c => c.M) u, mul_comm,
      mul_div_assoc, div_self (ne_of_gt hpos), mul_one]

/-- Witness for C3: the block of concrete scenario 3 (masses all 10,
velocities 1..4) gets the mass-weighted mean velocity. -/
theorem C3_witness :
    (combineCells cellsScenario3).U =
      if (cellsScenario3.map (fun c => c.M)).sum = 0 then 0
      else (cellsScenario3.map (fun c => c.M * c.U)).sum /
        (cellsScenario3.map (fun c => c.M)).sum :=
  (C3_combine_weighted_rules cellsScenario3 (by decide) (by decide)).1

/-! ## Claim C10 -/

/-- C10: `DataMap.com` on a grid with no droplet cells accumulates zero
mass and the final `_com['X'] /= _mass` raises an uncaught
`ZeroDivisionError` (the `except` clause catches only `KeyError`), modelled
by `none`; in general `com` returns a position pair exactly when the total
droplet mass is nonzero. -/
theorem C10_com_division_by_zero (g : Grid) :
    ((∀ i j, i < g.rows → j < g.cols → (g.cell i j).droplet = false) →
      comPy g = none) ∧
    ((comPy g).isSome ↔ dropletMass g ≠ 0) := by
  constructor
  · intro h
    have hfil : (flattenT g).filter (fun c => c.droplet) = [] := by
      apply List.filter_eq_nil_iff.2
      intro c hc
      rcases List.mem_flatMap.1 hc with ⟨j, hj, hc2⟩
      rcases List.mem_map.1 hc2 with ⟨i, hi, rfl⟩
      rw [h i j (List.mem_range.1 hi) (List.mem_range.1 hj)]
      simp
    unfold comPy
    rw [hfil]
    simp
  · unfold comPy dropletMass
    by_cases hm : ((flattenT g).filter (fun c => c.droplet)).foldl
        (fun s c => s + c.M) 0 = 0
    · rw [if_pos hm]
      simp [hm]
    · rw [if_neg hm]
      simp [hm]

/-- Witness for C10: a concrete 1 × 2 grid with no droplet cells makes
`com` raise. -/
theorem C10_witness : comPy gridNoDrop = none := by
  apply (C10_com_division_by_zero gridNoDrop).1
  intro i j hi hj
  have hi1 : i < 1 := hi
  have hj2 : j < 2 := hj
  interval_cases i
  interval_cases j <;> rfl

/-! ## Claim C8 -/

theorem find?_range'_spec {p : ℕ → Bool} : ∀ {n s c : ℕ},
    (List.range' s n).find? p = some c →
    p c = true ∧ s ≤ c ∧ c < s + n ∧ ∀ m, s ≤ m → m < c → p m = false := by
  intro n
  induction n with
  | zero => intro s c h; simp at h
  | succ n ih =>
    intro s c h
    rw [List.range'_succ, List.find?_cons] at h
    cases hps : p s with
    | true =>
      rw [hps] at h
      have hc : s = c := by simpa using h
      subst hc
      exact ⟨hps, le_rfl, by omega, fun m hm1 hm2 => absurd hm2 (by omega)⟩
    | false =>
      rw [hps] at h
      obtain ⟨hpc, hsc, hcn, hall⟩ := ih h
      refine ⟨hpc, by omega, by omega, ?_⟩
      intro m hm1 hm2
      rcases Nat.eq_or_lt_of_le hm1 with rfl | hm1'
      · exact hps
      · exact hall m hm1' hm2

theorem find?_range_spec {p : ℕ → Bool} {n c : ℕ}
    (h : (List.range n).find? p = some c) :
    p c = true ∧ c < n ∧ ∀ m, m < c → p m = false := by
  rw [List.range_eq_range'] at h
  obtain ⟨hpc, -, hcn, hall⟩ := find?_range'_spec h
  exact ⟨hpc, by omega, fun m hm => hall m (Nat.zero_le m) hm⟩

theorem find?_reverse_range_spec {p : ℕ → Bool} : ∀ {n c : ℕ},
    (List.range n).reverse.find? p = some c →
    p c = true ∧ c < n ∧ ∀ m, c < m → m < n → p m = false := by
  intro n
  induction n with
  | zero => intro c h; simp at h
  | succ n ih =>
    intro c h
    rw [List.range_succ, List.reverse_append] at h
    simp only [List.reverse_cons, List.reverse_nil, List.nil_append,
      List.singleton_append, List.find?_cons] at h
    cases hpn : p n with
    | true =>
      rw [hpn] at h
      have hc : n = c := by simpa using h
      subst hc
      exact ⟨hpn, by omega, fun m hm1 hm2 => absurd hm1 (by omega)⟩
    | false =>
      rw [hpn] at h
      obtain ⟨hpc, hcn, hall⟩ := ih h
      refine ⟨hpc, by omega, ?_⟩
      intro m hm1 hm2
      rcases Nat.eq_or_lt_of_le (Nat.succ_le_of_lt hm1) with he | hm1'
      · by_cases hmn : m = n
        · rw [hmn]; exact hpn
        · exact hall m hm1 (by omega)
      · by_cases hmn : m = n
        · rw [hmn]; exact hpn
        · exact hall m hm1 (by omega)

theorem rowLeft_isSome (g : Grid) (i : ℕ) :
    (rowLeft g i).isSome = rowHasDrop g i := by
  cases h : rowLeft g i with
  | none =>
    rw [rowLeft, List.find?_eq_none] at h
    have hfalse : rowHasDrop g i = false := by
      rw [rowHasDrop, List.any_eq_false]
      exact h
    rw [hfalse]
    rfl
  | some c =>
    have hc := List.find?_some h
    have hmem := List.mem_of_find?_eq_some h
    have htrue : rowHasDrop g i = true := by
      rw [rowHasDrop, List.any_eq_true]
      exact ⟨c, hmem, hc⟩
    rw [htrue]
    rfl

theorem rowRight_isSome (g : Grid) (i : ℕ) :
    (rowRight g i).isSome = rowHasDrop g i := by
  cases h : rowRight g i with
  | none =>
    rw [rowRight, List.find?_eq_none] at h
    have hfalse : rowHasDrop g i = false := by
      rw [rowHasDrop, List.any_eq_false]
      intro x hx
      exact h x (List.mem_reverse.2 hx)
    rw [hfalse]
    rfl
  | some c =>
    have hc := List.find?_some h
    have hmem := List.mem_reverse.1 (List.mem_of_find?_eq_some h)
    have htrue : rowHasDrop g i = true := by
      rw [rowHasDrop, List.any_eq_true]
      exact ⟨c, hmem, hc⟩
    rw [htrue]
    rfl

theorem map_snd_filterMap_opt (l : List ℕ) (opt : ℕ → Option ℕ) :
    (l.filterMap (fun i => (opt i).map (fun j => (j, i)))).map Prod.snd =
      l.filter (fun i => (opt i).isSome) := by
  induction l with
  | nil => rfl
  | cons a t ih =>
    cases hoa : opt a with
    | none =>
      rw [List.filterMap_cons, List.filter_cons, hoa]
      simp only [Option.map_none', Option.isSome_none, Bool.false_eq_true,
        if_false]
      exact ih
    | some j =>
      rw [List.filterMap_cons, List.filter_cons, hoa]
      simp only [Option.map_some', Option.isSome_some, if_true, List.map_cons]
      rw [ih]

/-- C8 (amended): `interface()` returns the per-row leftmost droplet cell
indices for the droplet-occupied rows bottom-to-top, followed by the
per-row rightmost ones top-to-bottom (rows without droplet cells skipped);
the row-index sequence of the polyline is the increasing list of droplet
rows followed by its reverse, hence monotonically non-decreasing and then
non-increasing.  Consecutive row indices need *not* differ by at most 1:
classification can leave a vertical gap in the droplet rows (see the
counterexample), and then the polyline jumps across the gap. -/
theorem C8_interface_structure (g : Grid) :
    ((interfaceIdx g).map Prod.snd = dropRows g ++ (dropRows g).reverse) ∧
    List.Pairwise (· < ·) (dropRows g) ∧
    (∀ p ∈ interfaceLeft g, (g.cell p.2 p.1).droplet = true ∧
      ∀ c, c < p.1 → (g.cell p.2 c).droplet = false) ∧
    (∀ p ∈ interfaceRight g, (g.cell p.2 p.1).droplet = true ∧
      ∀ c, p.1 < c → c < g.cols → (g.cell p.2 c).droplet = false) := by
  refine ⟨?_, ?_, ?_, ?_⟩
  · rw [interfaceIdx, List.map_append, List.map_reverse]
    rw [interfaceLeft, map_snd_filterMap_opt]
    rw [interfaceRight, map_snd_filterMap_opt]
    rw [List.filter_congr (fun i _ => rowLeft_isSome g i),
      List.filter_congr (fun i _ => rowRight_isSome g i)]
    rfl
  · exact (List.pairwise_lt_range g.rows).filter _
  · intro p hp
    rcases List.mem_filterMap.1 hp with ⟨i, hi, hfi⟩
    rcases Option.map_eq_some'.1 hfi with ⟨j, hj, rfl⟩
    obtain ⟨hpc, -, hall⟩ := find?_range_spec hj
    refine ⟨hpc, ?_⟩
    intro c hc
    exact hall c hc
  · intro p hp
    rcases List.mem_filterMap.1 hp with ⟨i, hi, hfi⟩
    rcases Option.map_eq_some'.1 hfi with ⟨j, hj, rfl⟩
    obtain ⟨hpc, -, hall⟩ := find?_reverse_range_spec hj
    refine ⟨hpc, ?_⟩
    intro c hc1 hc2
    exact hall c hc1 hc2

/-- Counterexample to the adjacency part of C8: classifying a 5 × 2 grid
whose middle row has zero mass leaves droplet rows {0, 1, 3, 4}; the
polyline row sequence is [0, 1, 3, 4, 4, 3, 1, 0], whose consecutive
entries 1 and 3 differ by 2, violating "row indices differ by at most 1". -/
theorem C8_counterexample :
    (interfaceIdx (gridDroplet 0 1 gridGap)).map Prod.snd =
      [0, 1, 3, 4, 4, 3, 1, 0] ∧
    (((interfaceIdx (gridDroplet 0 1 gridGap)).map Prod.snd).zip
        ((interfaceIdx (gridDroplet 0 1 gridGap)).map Prod.snd).tail).all
      (fun p => decide (p.1 ≤ p.2 + 1 ∧ p.2 ≤ p.1 + 1)) = false := by
  constructor
  · decide
  · decide

/-- Witness for C8 on a fully droplet-classified 3 × 3 grid: the polyline
row sequence is the droplet rows up then down, and the bottom-left
interface point is a leftmost droplet cell. -/
theorem C8_witness :
    ((interfaceIdx gridFlow).map Prod.snd =
      dropRows gridFlow ++ (dropRows gridFlow).reverse) ∧
    (gridFlow.cell 0 0).droplet = true :=
  ⟨(C8_interface_structure gridFlow).1,
   ((C8_interface_structure gridFlow).2.2.1 (0, 0) (by decide)).1⟩

/-! ## Claim C9 -/

theorem centralDiff_none {sel : Cell → ℚ} {massFlow : Bool} {N : ℕ} {d : ℚ}
    {p0 p1 : Cell} (h : p0.droplet = false ∨ p1.droplet = false) :
    centralDiff sel massFlow N d p0 p1 = none := by
  unfold centralDiff
  rcases h with h | h
  · rw [if_pos h]
  · cases hp0 : p0.droplet with
    | false => rw [if_pos rfl]
    | true =>
      rw [if_neg (by simp), if_pos h]

theorem centralDiff_some {sel : Cell → ℚ} {N : ℕ} {d : ℚ} {p0 p1 : Cell}
    (h0 : p0.droplet = true) (h1 : p1.droplet = true) (hN : 1 ≤ N)
    (hd : d ≠ 0) :
    centralDiff sel false N d p0 p1 =
      some ((sel p1 - sel p0) / (2 * (N : ℚ) * d)) := by
  have hden : 2 * (N : ℚ) * d ≠ 0 := by
    apply mul_ne_zero
    · apply mul_ne_zero two_ne_zero
      exact Nat.cast_ne_zero.2 (by omega)
    · exact hd
  unfold centralDiff
  rw [if_neg (by simp [h0]), if_neg (by simp [h1])]
  simp only [Bool.false_eq_true, if_false]
  by_cases hz : sel p1 - sel p0 = 0
  · rw [if_pos hz, hz, zero_div]
  · rw [if_neg hz, if_neg hden]

theorem strainSq_nonneg (a b c d : ℚ) : 0 ≤ strainSq a b c d := by
  unfold strainSq
  nlinarith [sq_nonneg (a - d), sq_nonneg (a + d), sq_nonneg (c + b)]

theorem shearInCellSq_nonneg (g : Grid) (massFlow : Bool) (N : ℕ)
    (dx dy : ℚ) (i j : ℕ) : 0 ≤ shearInCellSq g massFlow N dx dy i j := by
  unfold shearInCellSq
  cases centralDiff (fun c => c.U) massFlow N dx (g.cell i (j - N)) (g.cell i (j + N)) with
  | none => exact le_rfl
  | some dudx =>
    cases centralDiff (fun c => c.V) massFlow N dx (g.cell i (j - N)) (g.cell i (j + N)) with
    | none => exact le_rfl
    | some dvdx =>
      cases centralDiff (fun c => c.U) massFlow N dy (g.cell (i - N) j) (g.cell (i + N) j) with
      | none => exact le_rfl
      | some dudy =>
        cases centralDiff (fun c => c.V) massFlow N dy (g.cell (i - N) j) (g.cell (i + N) j) with
        | none => exact le_rfl
        | some dvdy => exact strainSq_nonneg dudx dvdx dudy dvdy

theorem shearInCellSq_zero_of_stencil (g : Grid) (massFlow : Bool) (N : ℕ)
    (dx dy : ℚ) (i j : ℕ)
    (h : (g.cell i (j - N)).droplet = false ∨
      (g.cell i (j + N)).droplet = false ∨
      (g.cell (i - N) j).droplet = false ∨
      (g.cell (i + N) j).droplet = false) :
    shearInCellSq g massFlow N dx dy i j = 0 := by
  unfold shearInCellSq
  rcases h with h | h | h | h
  · rw [centralDiff_none (Or.inl h)]
  · rw [centralDiff_none (Or.inr h)]
  · cases hd1 : centralDiff (fun c => c.U) massFlow N dx (g.cell i (j - N)) (g.cell i (j + N)) with
    | none => rfl
    | some dudx =>
      cases hd2 : centralDiff (fun c => c.V) massFlow N dx (g.cell i (j - N)) (g.cell i (j + N)) with
      | none => rfl
      | some dvdx =>
        rw [centralDiff_none (Or.inl h)]
  · cases hd1 : centralDiff (fun c => c.U) massFlow N dx (g.cell i (j - N)) (g.cell i (j + N)) with
    | none => rfl
    | some dudx =>
      cases hd2 : centralDiff (fun c => c.V) massFlow N dx (g.cell i (j - N)) (g.cell i (j + N)) with
      | none => rfl
      | some dvdx =>
        rw [centralDiff_none (Or.inr h)]

/-- C9: the shear computation is total and zero-filled.  For every grid,
stencil half-width `N ≥ 1` and differencing mode: (1) every cell within `N`
of a grid edge keeps shear 0; (2) every cell whose four-point difference
stencil contains a non-droplet cell gets shear 0 (the raised exception is
caught and zero-filled); (3) every interior droplet cell with an
all-droplet stencil (in the default velocity mode, on a non-degenerate
grid) receives exactly the central-difference strain-rate expression; and
(4) the argument of the square root is non-negative for every cell, so the
code's `np.sqrt` is always a well-defined real number — never NaN — and
the embedded computation is a total function (no exception escapes: the
`except Exception` handler converts every internal raise into 0). -/
theorem C9_shear_total_zero_filled (g : Grid) (massFlow : Bool) (N : ℕ)
    (dx dy : ℚ) (hN : 1 ≤ N) :
    (∀ i j, (i < N ∨ g.rows ≤ i + N ∨ j < N ∨ g.cols ≤ j + N) →
      shearSqField g massFlow N dx dy i j = 0) ∧
    (∀ i j, ((g.cell i (j - N)).droplet = false ∨
        (g.cell i (j + N)).droplet = false ∨
        (g.cell (i - N) j).droplet = false ∨
        (g.cell (i + N) j).droplet = false) →
      shearSqField g massFlow N dx dy i j = 0) ∧
    (∀ i j, N ≤ i → i + N < g.rows → N ≤ j → j + N < g.cols →
      (g.cell i j).droplet = true →
      (g.cell i (j - N)).droplet = true → (g.cell i (j + N)).droplet = true →
      (g.cell (i - N) j).droplet = true → (g.cell (i + N) j).droplet = true →
      massFlow = false → dx ≠ 0 → dy ≠ 0 →
      shearSqField g massFlow N dx dy i j =
        strainSq
          (((g.cell i (j + N)).U - (g.cell i (j - N)).U) / (2 * (N : ℚ) * dx))
          (((g.cell i (j + N)).V - (g.cell i (j - N)).V) / (2 * (N : ℚ) * dx))
          (((g.cell (i + N) j).U - (g.cell (i - N) j).U) / (2 * (N : ℚ) * dy))
          (((g.cell (i + N) j).V - (g.cell (i - N) j).V) / (2 * (N : ℚ) * dy))) ∧
    (∀ i j, 0 ≤ shearSqField g massFlow N dx dy i j) := by
  refine ⟨?_, ?_, ?_, ?_⟩
  · intro i j h
    unfold shearSqField
    rw [if_neg]
    rintro ⟨h1, h2, h3, h4, -⟩
    omega
  · intro i j h
    unfold shearSqField
    by_cases hin : N ≤ i ∧ i + N < g.rows ∧ N ≤ j ∧ j + N < g.cols ∧
        (g.cell i j).droplet = true
    · rw [if_pos hin]
      exact shearInCellSq_zero_of_stencil g massFlow N dx dy i j h
    · rw [if_neg hin]
  · intro i j h1 h2 h3 h4 hdrop hs1 hs2 hs3 hs4 hmf hdx hdy
    subst hmf
    unfold shearSqField
    rw [if_pos ⟨h1, h2, h3, h4, hdrop⟩]
    unfold shearInCellSq
    rw [centralDiff_some hs1 hs2 hN hdx, centralDiff_some hs1 hs2 hN hdx,
      centralDiff_some hs3 hs4 hN hdy, centralDiff_some hs3 hs4 hN hdy]
  · intro i j
    unfold shearSqField
    by_cases hin : N ≤ i ∧ i + N < g.rows ∧ N ≤ j ∧ j + N < g.cols ∧
        (g.cell i j).droplet = true
    · rw [if_pos hin]
      exact shearInCellSq_nonneg g massFlow N dx dy i j
    · rw [if_neg hin]

/-- Witness for C9 on a concrete 3 × 3 all-droplet grid with `N = 1`:
the centre cell's squared shear is the strain expression and everything is
non-negative; an edge cell holds 0. -/
theorem C9_witness :
    shearSqField gridFlow false 1 1 1 0 0 = 0 ∧
    (0 : ℚ) ≤ shearSqField gridFlow false 1 1 1 1 1 :=
  ⟨(C9_shear_total_zero_filled gridFlow false 1 1 1 (by decide)).1 0 0
      (Or.inl (by decide)),
   (C9_shear_total_zero_filled gridFlow false 1 1 1 (by decide)).2.2.2 1 1⟩

/-! ## Claim C4 -/

theorem combineFold_none (nx ny : ℕ) (xs : List (ℕ × ℕ)) :
    xs.foldl (combineStep nx ny) none = none := by
  induction xs with
  | nil => rfl
  | cons p rest ih => exact ih

theorem blockList_congr (cf cg : ℕ → ℕ → Cell) (x y nx ny : ℕ)
    (h : ∀ r c, r < ny → c < nx →
      cf (y * ny + r) (x * nx + c) = cg (y * ny + r) (x * nx + c)) :
    blockList cf x y nx ny = blockList cg x y nx ny := by
  unfold blockList
  rw [List.flatMap_def, List.flatMap_def]
  congr 1
  apply List.map_congr_left
  intro c hc
  apply List.map_congr_left
  intro r hr
  exact h r c (List.mem_range.1 hr) (List.mem_range.1 hc)

/-- The combine loop order is lexicographic: `x` (outer) then `y`. -/
theorem combineOrder_pairwise (nxq nyq : ℕ) :
    List.Pairwise (fun p q : ℕ × ℕ =>
      p.1 < q.1 ∨ (p.1 = q.1 ∧ p.2 < q.2)) (combineOrder nxq nyq) := by
  induction nxq with
  | zero =>
    unfold combineOrder
    simp
  | succ n ihn =>
    have he : combineOrder (n + 1) nyq =
        combineOrder n nyq ++ (List.range nyq).map (fun y => (n, y)) := by
      unfold combineOrder
      rw [List.range_succ, List.flatMap_append]
      simp
    rw [he]
    apply List.pairwise_append.2
    refine ⟨ihn, ?_, ?_⟩
    · apply List.pairwise_map.2
      apply (List.pairwise_lt_range nyq).imp
      intro a b hab
      exact Or.inr ⟨rfl, hab⟩
    · intro p hp q hq
      have hp1 : p.1 < n := by
        unfold combineOrder at hp
        rcases List.mem_flatMap.1 hp with ⟨x, hx, hmem⟩
        rcases List.mem_map.1 hmem with ⟨y, -, rfl⟩
        exact List.mem_range.1 hx
      rcases List.mem_map.1 hq with ⟨y, -, rfl⟩
      exact Or.inl hp1

/-- Each output cell's write position lies outside the read block of every
later output cell, so every block is read from unmodified source values. -/
theorem combineOrder_pairwise_ni (nxq nyq nx ny : ℕ) (hnx : 1 ≤ nx)
    (hny : 1 ≤ ny) :
    List.Pairwise (fun p q : ℕ × ℕ =>
      p ≠ q ∧ ¬(q.2 * ny ≤ p.2 ∧ p.2 < q.2 * ny + ny ∧
        q.1 * nx ≤ p.1 ∧ p.1 < q.1 * nx + nx)) (combineOrder nxq nyq) := by
  apply (combineOrder_pairwise nxq nyq).imp
  intro p q hlex
  constructor
  · intro he
    rw [he] at hlex
    rcases hlex with h | ⟨-, h⟩
    · exact lt_irrefl _ h
    · exact lt_irrefl _ h
  · rintro ⟨h1, h2, h3, h4⟩
    have hx : q.1 ≤ q.1 * nx := Nat.le_mul_of_pos_right _ (by omega)
    have hy : q.2 ≤ q.2 * ny := Nat.le_mul_of_pos_right _ (by omega)
    rcases hlex with h | ⟨he, h⟩
    · omega
    · omega

theorem mem_combineOrder {nxq nyq : ℕ} {p : ℕ × ℕ} :
    p ∈ combineOrder nxq nyq ↔ p.1 < nxq ∧ p.2 < nyq := by
  obtain ⟨x, y⟩ := p
  simp [combineOrder, List.mem_flatMap, List.mem_range]

/-- Invariant of the combine write loop: as long as every pending block's
read region is untouched, each processed output position receives the
combination of the *original* source block, and untouched positions keep
their value. -/
theorem combineFold (g : Grid) (nx ny : ℕ) :
    ∀ (xs : List (ℕ × ℕ)) (cf res : ℕ → ℕ → Cell),
    List.Pairwise (fun p q : ℕ × ℕ =>
      p ≠ q ∧ ¬(q.2 * ny ≤ p.2 ∧ p.2 < q.2 * ny + ny ∧
        q.1 * nx ≤ p.1 ∧ p.1 < q.1 * nx + nx)) xs →
    (∀ q ∈ xs, ∀ r c, r < ny → c < nx →
      cf (q.2 * ny + r) (q.1 * nx + c) = g.cell (q.2 * ny + r) (q.1 * nx + c)) →
    xs.foldl (combineStep nx ny) (some cf) = some res →
    (∀ q ∈ xs, res q.2 q.1 = combineCells (blockList g.cell q.1 q.2 nx ny)) ∧
    (∀ i j, (∀ q ∈ xs, ¬(i = q.2 ∧ j = q.1)) → res i j = cf i j) := by
  intro xs
  induction xs with
  | nil =>
    intro cf res _ _ hfold
    have hcf : cf = res := by simpa using hfold
    subst hcf
    exact ⟨fun q hq => absurd hq (List.not_mem_nil q), fun i j _ => rfl⟩
  | cons p rest ih =>
    intro cf res hpw hagree hfold
    obtain ⟨hhead, htail⟩ := List.pairwise_cons.1 hpw
    have hblock : blockList cf p.1 p.2 nx ny = blockList g.cell p.1 p.2 nx ny :=
      blockList_congr cf g.cell p.1 p.2 nx ny
        (hagree p (List.mem_cons_self p rest))
    rw [List.foldl_cons] at hfold
    cases hinfo : infoOf (blockList cf p.1 p.2 nx ny) with
    | none =>
      rw [show combineStep nx ny (some cf) p = none from by
        simp only [combineStep, Option.some_bind]; rw [hinfo]; rfl] at hfold
      rw [combineFold_none] at hfold
      cases hfold
    | some inf =>
      have hstep : combineStep nx ny (some cf) p =
          some (setCell cf p.2 p.1
            (combineCells (blockList cf p.1 p.2 nx ny))) := by
        simp only [combineStep, Option.some_bind]
        rw [hinfo]
        rfl
      rw [hstep] at hfold
      have hagree' : ∀ q ∈ rest, ∀ r c, r < ny → c < nx →
          setCell cf p.2 p.1 (combineCells (blockList cf p.1 p.2 nx ny))
            (q.2 * ny + r) (q.1 * nx + c) =
          g.cell (q.2 * ny + r) (q.1 * nx + c) := by
        intro q hq r c hr hc
        have hni := (hhead q hq).2
        have hne : ¬(q.2 * ny + r = p.2 ∧ q.1 * nx + c = p.1) := by
          rintro ⟨he1, he2⟩
          exact hni ⟨by omega, by omega, by omega, by omega⟩
        rw [setCell, if_neg hne]
        exact hagree q (List.mem_cons_of_mem p hq) r c hr hc
      obtain ⟨hres1, hres2⟩ := ih _ res htail hagree' hfold
      constructor
      · intro q hq
        rcases List.mem_cons.1 hq with rfl | hq'
        · have hnot : ∀ q' ∈ rest, ¬(q.2 = q'.2 ∧ q.1 = q'.1) := by
            intro q' hq' hc
            exact (hhead q' hq').1 (Prod.ext hc.2.symm hc.1.symm).symm
          have hval := hres2 q.2 q.1 hnot
          rw [hval, setCell, if_pos ⟨rfl, rfl⟩, hblock]
        · exact hres1 q hq'
      · intro i j hnone
        have hval := hres2 i j (fun q hq => hnone q (List.mem_cons_of_mem p hq))
        rw [hval, setCell, if_neg (hnone p (List.mem_cons_self p rest))]

/-- C4 is wrong about `combine`: the output grid is the numpy view
`self.cells[0:ny', 0:nx']` of the *source* array, and every combined cell is
assigned through that view, so `combine` overwrites the top-left `ny' × nx'`
cells of the source.  This theorem is the amended characterisation: whenever
`combine(nx, ny)` completes, (1) source cells outside the combined region
keep their original field values, (2) each source cell inside the region is
replaced by the combination of the corresponding *original* source block
(blocks are processed in an order that never touches a later block's read
region), (3) the returned grid has the truncated dimensions, and (4) its
cells alias the overwritten source cells.  `cut` performs no write at all
(its result is likewise a view of the source), so `cut` leaves the source
untouched. -/
theorem C4_combine_mutates_source (g : Grid) (nx ny : ℕ) :
    (∀ i j, (g.rows / ny ≤ i ∨ g.cols / nx ≤ j) →
      (combinePy g nx ny).map (fun pr => pr.2.cell i j) =
      (combinePy g nx ny).map (fun _ => g.cell i j)) ∧
    (∀ i j, i < g.rows / ny → j < g.cols / nx →
      (combinePy g nx ny).map (fun pr => pr.2.cell i j) =
      (combinePy g nx ny).map
        (fun _ => combineCells (blockList g.cell j i nx ny))) ∧
    ((combinePy g nx ny).map (fun pr => (pr.1.rows, pr.1.cols)) =
      (combinePy g nx ny).map (fun _ => (g.rows / ny, g.cols / nx))) ∧
    (∀ i j, (combinePy g nx ny).map (fun pr => pr.1.cell i j) =
      (combinePy g nx ny).map (fun pr => pr.2.cell i j)) := by
  by_cases hzero : nx = 0 ∨ ny = 0
  · have hnone : combinePy g nx ny = none := by
      unfold combinePy
      rw [if_pos hzero]
    rw [hnone]
    exact ⟨fun i j _ => rfl, fun i j _ _ => rfl, rfl, fun i j => rfl⟩
  · have hnx : 1 ≤ nx := by omega
    have hny : 1 ≤ ny := by omega
    cases hfold : (combineOrder (g.cols / nx) (g.rows / ny)).foldl
        (combineStep nx ny) (some g.cell) with
    | none =>
      have hnone : combinePy g nx ny = none := by
        unfold combinePy
        rw [if_neg hzero, hfold]
        rfl
      rw [hnone]
      exact ⟨fun i j _ => rfl, fun i j _ _ => rfl, rfl, fun i j => rfl⟩
    | some cf =>
      have hsome : combinePy g nx ny =
          some (⟨g.rows / ny, g.cols / nx, cf⟩, ⟨g.rows, g.cols, cf⟩) := by
        unfold combinePy
        rw [if_neg hzero, hfold]
        rfl
      obtain ⟨hres1, hres2⟩ := combineFold g nx ny
        (combineOrder (g.cols / nx) (g.rows / ny)) g.cell cf
        (combineOrder_pairwise_ni (g.cols / nx) (g.rows / ny) nx ny hnx hny)
        (fun _ _ _ _ _ _ => rfl) hfold
      rw [hsome]
      refine ⟨?_, ?_, rfl, fun i j => rfl⟩
      · intro i j hij
        simp only [Option.map_some']
        congr 1
        apply hres2
        intro q hq hiq
        have hqb := mem_combineOrder.1 hq
        omega
      · intro i j hi hj
        simp only [Option.map_some']
        congr 1
        exact hres1 (j, i) (mem_combineOrder.2 ⟨hj, hi⟩)

/-- Counterexample to C4 as stated: `combine(2, 2)` on the 2 × 2 source
overwrites the source's cell (0,0) through the view — its droplet flag
becomes `true` (the OR over the block, whose top-right cell is a droplet)
where the original cell (0,0) holds `false` — so the source grid is *not*
left with the field values it held before the call. -/
theorem C4_counterexample :
    (combinePy gridTwoByTwo 2 2).map (fun pr => (pr.2.cell 0 0).droplet) =
      some true ∧
    (gridTwoByTwo.cell 0 0).droplet = false := by
  constructor
  · decide
  · decide

/-- Witness for C4 (amended): on the concrete 2 × 2 grid, a source cell
outside the combined region is untouched and the top-left cell holds the
combination of the original block. -/
theorem C4_witness :
    ((combinePy gridTwoByTwo 2 2).map (fun pr => pr.2.cell 1 1) =
      (combinePy gridTwoByTwo 2 2).map (fun _ => gridTwoByTwo.cell 1 1)) ∧
    ((combinePy gridTwoByTwo 2 2).map (fun pr => pr.2.cell 0 0) =
      (combinePy gridTwoByTwo 2 2).map
        (fun _ => combineCells (blockList gridTwoByTwo.cell 0 0 2 2))) :=
  ⟨(C4_combine_mutates_source gridTwoByTwo 2 2).1 1 1 (Or.inl (by decide)),
   (C4_combine_mutates_source gridTwoByTwo 2 2).2.1 0 0 (by decide) (by decide)⟩

/-! ## Claim C5 -/

theorem infoOf_of_cols_zero (g' : Grid) (h : g'.cols = 0) :
    infoOf (flattenT g') = none := by
  have hf : flattenT g' = [] := by
    rw [flattenT, h]
    rfl
  rw [hf]
  rfl

/-- The cell-index arithmetic of `cut` on an inverted clamped range: the
computed maximal cell index falls strictly below the minimal one (and stays
at least `-1`, so the Python slice does not wrap around). -/
theorem maxCell_lt_minCell {cutmin cutmax start size : ℚ} (top : ℕ)
    (hsize : 0 < size) (hlt : cutmax < cutmin) (hge : start ≤ cutmax) :
    maxCellIdx cutmax start size top < minCellIdx cutmin start size ∧
    (0 : ℤ) ≤ maxCellIdx cutmax start size top + 1 := by
  unfold maxCellIdx minCellIdx
  set B : ℚ := (cutmax - start) / size with hB
  set A : ℚ := (cutmin - start) / size with hA
  have hBA : B < A := by
    rw [hA, hB]
    gcongr
  have hB0 : 0 ≤ B := by
    rw [hB]
    apply div_nonneg _ (le_of_lt hsize)
    linarith
  have hfl : (-1 : ℤ) ≤ ⌊B - 1 / 2⌋ := by
    apply Int.le_floor.2
    push_cast
    linarith
  have h4 : ⌊B - 1 / 2⌋ < ⌈A + 1 / 2⌉ := by
    have hflo := Int.floor_le (B - 1 / 2)
    have hcei := Int.le_ceil (A + 1 / 2)
    have hc : ((⌊B - 1 / 2⌋ : ℤ) : ℚ) < ((⌈A + 1 / 2⌉ : ℤ) : ℚ) := by
      linarith
    exact_mod_cast hc
  have h7 : (0 : ℤ) ≤ (top : ℤ) := Int.ofNat_nonneg _
  omega

/-- On an inverted x-range (upper bound not below the grid origin), the
clamped range stays inverted, the computed cell range is empty, and
recomputing the info of the empty slice fails. -/
theorem cutPy_inverted_aux (g : Grid) (cutx cuty : ℚ × ℚ)
    (h : ∀ info, infoOf (flattenT g) = some info →
      0 < info.dx ∧ info.x0 ≤ info.x1 ∧ info.x0 ≤ cutx.2 ∧ cutx.2 < cutx.1) :
    cutPy g cutx cuty = none := by
  cases hinfo : infoOf (flattenT g) with
  | none =>
    unfold cutPy
    rw [hinfo]
    rfl
  | some info =>
    obtain ⟨hdx, hx01, hx0, hinv⟩ := h info hinfo
    have hlt : min cutx.2 info.x1 < max cutx.1 info.x0 := by
      have h1 : min cutx.2 info.x1 ≤ cutx.2 := min_le_left _ _
      have h2 : cutx.1 ≤ max cutx.1 info.x0 := le_max_left _ _
      linarith
    have hge : info.x0 ≤ min cutx.2 info.x1 := le_min hx0 hx01
    have hmm := maxCell_lt_minCell info.nx hdx hlt hge
    have hma : (0 : ℤ) ≤ minCellIdx (max cutx.1 info.x0) info.x0 info.dx :=
      le_max_left _ _
    have hcols : (cutSlice g info cutx cuty).cols = 0 := by
      show pySliceIdx g.cols
          (maxCellIdx (min cutx.2 info.x1) info.x0 info.dx info.nx + 1) -
        pySliceIdx g.cols (minCellIdx (max cutx.1 info.x0) info.x0 info.dx) = 0
      apply Nat.sub_eq_zero_of_le
      unfold pySliceIdx
      rw [if_neg (by omega), if_neg (by omega)]
      have htn : (maxCellIdx (min cutx.2 info.x1) info.x0 info.dx info.nx +
          1).toNat ≤
          (minCellIdx (max cutx.1 info.x0) info.x0 info.dx).toNat := by
        omega
      exact min_le_min htn le_rfl
    unfold cutPy
    rw [hinfo]
    simp only [Option.some_bind]
    rw [infoOf_of_cols_zero _ hcols]
    rfl

/-- C5 (amended): `cut` with an inverted coordinate range is not silent.
For every grid whose info has a positive cell size, ordered x-bounds and
origin at or below the requested upper bound, an inverted x-range makes the
computed cell range empty and `data_map._info = data_map.info` then raises
`IndexError` at `cells[0]` — modelled by `none` — instead of returning an
empty grid.  (Far below the origin, Python's negative-index wrap-around
changes the slice semantics, hence the origin-side hypothesis.) -/
theorem C5_cut_inverted_raises (g : Grid) (cutx cuty : ℚ × ℚ)
    (h : ∀ info, infoOf (flattenT g) = some info →
      0 < info.dx ∧ info.x0 ≤ info.x1 ∧ info.x0 ≤ cutx.2 ∧ cutx.2 < cutx.1) :
    cutPy g cutx cuty = none :=
  cutPy_inverted_aux g cutx cuty h

/-- Counterexample to C5 as stated: on a concrete 3 × 3 grid with unit
cell size and bounding box [0, 2] × [0, 2], `cut(cutx=[5, 2])` (inverted)
does not return an empty grid — it raises (`none`). -/
theorem C5_counterexample : cutPy gridThreeByThree (5, 2) (0, 2) = none := by
  apply cutPy_inverted_aux
  intro info hinfo
  have h1 : infoOf (flattenT gridThreeByThree) = some
      { x0 := ((0 : ℕ) : ℚ), x1 := ((2 : ℕ) : ℚ), y0 := ((0 : ℕ) : ℚ),
        y1 := ((2 : ℕ) : ℚ), total := 9, nx := 3, ny := 3,
        dx := ((1 : ℕ) : ℚ) - ((0 : ℕ) : ℚ),
        dy := ((1 : ℕ) : ℚ) - ((0 : ℕ) : ℚ) } := rfl
  rw [h1] at hinfo
  injection hinfo with hinfo
  subst hinfo
  refine ⟨by norm_num, by norm_num, by norm_num, by norm_num⟩

/-- Witness for C5: another inverted range, `cutx = [7, 3]`, on the same
3 × 3 grid also raises. -/
theorem C5_witness : cutPy gridThreeByThree (7, 3) (0, 2) = none := by
  apply C5_cut_inverted_raises
  intro info hinfo
  have h1 : infoOf (flattenT gridThreeByThree) = some
      { x0 := ((0 : ℕ) : ℚ), x1 := ((2 : ℕ) : ℚ), y0 := ((0 : ℕ) : ℚ),
        y1 := ((2 : ℕ) : ℚ), total := 9, nx := 3, ny := 3,
        dx := ((1 : ℕ) : ℚ) - ((0 : ℕ) : ℚ),
        dy := ((1 : ℕ) : ℚ) - ((0 : ℕ) : ℚ) } := rfl
  rw [h1] at hinfo
  injection hinfo with hinfo
  subst hinfo
  refine ⟨by norm_num, by norm_num, by norm_num, by norm_num⟩

end Flowtools
